import Mathlib

/-!
Verification of the relationship-detection and join-path-synthesis core of the
`data2ontology` repository.

The Python source is shallowly embedded:
* `src/src/models/metadata.py` / `models/pipeline.py` → the structures below.
  Fields that are never read by the modelled functions (e.g. `nullable`,
  `default`, `comment`, `ordinal_position`, `indexes`, `schema`,
  `row_count_estimate`, the free-text `reason` field and uuid-based ids)
  are omitted; no claim depends on them.
* `src/src/relationship_analyzer.py` → the three detection tiers, the
  difflib `SequenceMatcher.ratio` similarity score (computed exactly over `ℚ`;
  Python computes the same arithmetic over binary floats),
  naming-convention stem extraction (the five hardcoded case-insensitive
  regexes, unfolded into explicit prefix/suffix tests) and table-name
  normalisation.
* `src/src/pipeline_builder.py` → the relationship graph (a `networkx.DiGraph`:
  one edge per ordered node pair, re-adding an edge overwrites its attributes),
  Dijkstra shortest paths (modelled extensionally as the minimum total weight
  over simple paths, which is what Dijkstra computes for these nonnegative
  weights), `find_join_path`, `create_pipeline` (exceptions become
  `Except String`), `generate_datasets`, and `get_join_recommendations`.
-/

/-- `RelationshipConfidence` from `models/metadata.py`. -/
inductive RelationshipConfidence where
  | high
  | medium
  | low
deriving DecidableEq, Repr

/-- The `.value` of the Python `str`-enum. -/
def RelationshipConfidence.value : RelationshipConfidence → String
  | .high => "high"
  | .medium => "medium"
  | .low => "low"

/-- `ColumnInfo` (fields read by the analyzer). -/
structure ColumnInfo where
  name : String
  dataType : String
  isPrimaryKey : Bool := false
deriving DecidableEq, Repr

/-- `ForeignKeyInfo` (fields read by the analyzer). -/
structure ForeignKeyInfo where
  constraintName : String
  column : String
  referencesTable : String
  referencesColumn : String
deriving DecidableEq, Repr

/-- `TableInfo` (fields read by the analyzer and pipeline builder). -/
structure TableInfo where
  name : String
  columns : List ColumnInfo := []
  foreignKeys : List ForeignKeyInfo := []
deriving DecidableEq, Repr

/-- `DetectedRelationship` (the free-text `reason` is omitted). -/
structure DetectedRelationship where
  sourceTable : String
  sourceColumn : String
  targetTable : String
  targetColumn : String
  confidence : RelationshipConfidence
  detectionMethod : String
deriving DecidableEq, Repr

/-- `DatabaseMetadata` (fields read by the modelled code). -/
structure DatabaseMetadata where
  tables : List TableInfo := []
  detectedRelationships : List DetectedRelationship := []
deriving DecidableEq, Repr

/-- `AnalysisConfig` from `config.py`, restricted to the two fields the
relationship analyzer touches. `fk_column_patterns` is compiled at
construction (validation only); `similarity_threshold` defaults to 0.8. -/
structure AnalysisConfig where
  fkColumnPatterns : List String := ["_id$", "_fk$", "Id$"]
  similarityThreshold : ℚ := mkRat 4 5
deriving DecidableEq, Repr

/-! ## Naming-convention tier (`relationship_analyzer.py` lines 209-272) -/

/-- ASCII lowercasing of a character list (Python `str.lower()` /
`re.IGNORECASE` on the ASCII identifiers involved). -/
def toLowerList (cs : List Char) : List Char := cs.map Char.toLower

/-- Case-insensitive anchored match of `^(.+)SUF$`: the pattern's literal
suffix `suf` (given lowercased) against the end of `cs`, requiring a nonempty
stem; returns the stem (`match.group(1)`). -/
def stemBeforeSuffix (cs : List Char) (suf : List Char) : Option (List Char) :=
  if suf.length + 1 ≤ cs.length ∧ toLowerList (cs.drop (cs.length - suf.length)) = suf then
    some (cs.take (cs.length - suf.length))
  else
    none

/-- Case-insensitive anchored match of `^PRE(.+)$`: the pattern's literal
leading part `pre` (given lowercased) against the start of `cs`, requiring a
nonempty stem; returns the stem. -/
def stemAfterLeading (cs : List Char) (pre : List Char) : Option (List Char) :=
  if pre.length + 1 ≤ cs.length ∧ toLowerList (cs.take pre.length) = pre then
    some (cs.drop pre.length)
  else
    none

/-- `re.sub(r'([a-z])([A-Z])', r'\1_\2', name)`: insert an underscore between
a lowercase letter and the uppercase letter right after it, scanning left to
right with non-overlapping matches. -/
def camelToSnake : List Char → List Char
  | [] => []
  | [c] => [c]
  | a :: b :: rest =>
    if a.isLower ∧ b.isUpper then a :: '_' :: b :: camelToSnake rest
    else a :: camelToSnake (b :: rest)

/-- `RelationshipAnalyzer._normalize_table_name`: camelCase → snake_case,
lowercase, then append a trailing `'s'` unless already present. -/
def normalizeTableName (cs : List Char) : List Char :=
  let snake := toLowerList (camelToSnake cs)
  if snake.getLast? = some 's' then snake else snake ++ ['s']

/-- `RelationshipAnalyzer._extract_table_name_from_column`: try the five
hardcoded patterns `^(.+)_id$`, `^(.+)_fk$`, `^(.+)Id$`, `^fk_(.+)$`,
`^id_(.+)$` in order (all with `re.IGNORECASE`, first match wins) and
normalize the captured stem. -/
def extractTableNameFromColumn (columnName : String) : Option String :=
  let cs := columnName.toList
  let stem :=
    (stemBeforeSuffix cs ['_', 'i', 'd']).orElse fun _ =>
    (stemBeforeSuffix cs ['_', 'f', 'k']).orElse fun _ =>
    (stemBeforeSuffix cs ['i', 'd']).orElse fun _ =>
    (stemAfterLeading cs ['f', 'k', '_']).orElse fun _ =>
    stemAfterLeading cs ['i', 'd', '_']
  stem.map fun s => String.mk (normalizeTableName s)

/-- `RelationshipAnalyzer._find_matching_pk_column`: prefer a PK column
literally named `id` (case-insensitively), otherwise the first PK column. -/
def findMatchingPkColumn (t : TableInfo) : Option String :=
  match t.columns.find? (fun c => c.isPrimaryKey && c.name.toLower == "id") with
  | some c => some c.name
  | none => (t.columns.find? (fun c => c.isPrimaryKey)).map (·.name)

/-- The Python dict comprehension `{t.name: t for t in tables}`: on duplicate
names the last entry wins. -/
def tableLookup (tables : List TableInfo) (name : String) : Option TableInfo :=
  tables.reverse.find? (fun t => t.name == name)

/-- The set `{(r.source_table, r.source_column) for r in existing_rels}`. -/
def claimedPairs (rels : List DetectedRelationship) : List (String × String) :=
  rels.map fun r => (r.sourceTable, r.sourceColumn)

/-- `RelationshipAnalyzer._extract_fk_relationships`. -/
def extractFkRelationships (md : DatabaseMetadata) : List DetectedRelationship :=
  md.tables.flatMap fun t =>
    t.foreignKeys.map fun fk =>
      { sourceTable := t.name
        sourceColumn := fk.column
        targetTable := fk.referencesTable
        targetColumn := fk.referencesColumn
        confidence := .high
        detectionMethod := "foreign_key_constraint" }

/-- One iteration of `_detect_naming_relationships`' column loop: skip
already-claimed pairs and primary keys, then match the naming patterns
against the existing tables. -/
def namingCandidate (md : DatabaseMetadata) (existingRels : List DetectedRelationship)
    (table : TableInfo) (column : ColumnInfo) : Option DetectedRelationship :=
  if (table.name, column.name) ∈ claimedPairs existingRels then none
  else if column.isPrimaryKey then none
  else
    match extractTableNameFromColumn column.name with
    | none => none
    | some potentialTable =>
      match tableLookup md.tables potentialTable with
      | none => none
      | some targetTable =>
        match findMatchingPkColumn targetTable with
        | none => none
        | some targetColumn =>
          some { sourceTable := table.name
                 sourceColumn := column.name
                 targetTable := potentialTable
                 targetColumn := targetColumn
                 confidence := .medium
                 detectionMethod := "naming_convention" }

/-- `RelationshipAnalyzer._detect_naming_relationships`. -/
def detectNamingRelationships (md : DatabaseMetadata)
    (existingRels : List DetectedRelationship) : List DetectedRelationship :=
  md.tables.flatMap fun table =>
    table.columns.filterMap (namingCandidate md existingRels table)

/-! ## Similarity tier (`relationship_analyzer.py` lines 146-336)

`difflib.SequenceMatcher(None, a, b).ratio()` with no junk (the analyzer
passes `None` and the strings are far below the autojunk limit):
`2 * M / (len a + len b)` where `M` sums the sizes of the matching blocks,
obtained by recursively taking a longest matching block (of all maximal
blocks, the one starting earliest in `a`, then earliest in `b`) and recursing
on the pieces to its left and right. -/

/-- Length of the common prefix of two character lists. -/
def commonPrefixLen : List Char → List Char → Nat
  | a :: as, b :: bs => if a = b then commonPrefixLen as bs + 1 else 0
  | _, _ => 0

/-- `SequenceMatcher.find_longest_match` on whole (sub)lists: the triple
`(i, j, k)` of a longest matching block, tie-broken by smallest `i`, then
smallest `j` (difflib scans endings in ascending order and only replaces the
running best on a strictly larger size, which selects exactly this block). -/
def findLongestBlock (a b : List Char) : Nat × Nat × Nat :=
  (List.range a.length).foldl
    (fun best i =>
      (List.range b.length).foldl
        (fun best j =>
          let k := commonPrefixLen (a.drop i) (b.drop j)
          if best.2.2 < k then (i, j, k) else best)
        best)
    (0, 0, 0)

/-- Total size `M` of `SequenceMatcher.get_matching_blocks`: recurse on both
sides of a longest block.  `fuel` bounds the recursion depth; `a.length + 1`
always suffices because each recursive call strictly shrinks `a`. -/
def matchingTotal (fuel : Nat) (a b : List Char) : Nat :=
  match fuel with
  | 0 => 0
  | fuel + 1 =>
    let (i, j, k) := findLongestBlock a b
    if k = 0 then 0
    else
      matchingTotal fuel (a.take i) (b.take j) + k +
        matchingTotal fuel (a.drop (i + k)) (b.drop (j + k))

/-- `SequenceMatcher.ratio()`: `2M / T`, and `1` when both strings are empty
(difflib's `_calculate_ratio`). Computed exactly over `ℚ`. -/
def ratioOf (a b : List Char) : ℚ :=
  let t := a.length + b.length
  if t = 0 then 1 else mkRat (2 * matchingTotal (a.length + 1) a b) t

/-- `type.lower().split('(')[0].strip()` from `_types_compatible`. -/
def baseTypeName (s : String) : List Char :=
  let noParam := (toLowerList s.toList).takeWhile (· ≠ '(')
  ((noParam.dropWhile (·.isWhitespace)).reverse.dropWhile (·.isWhitespace)).reverse

/-- The integer type family of `_types_compatible` / `_is_integer_type`. -/
def intTypeNames : List (List Char) :=
  ["integer", "int", "int4", "smallint", "bigint", "int8", "serial", "bigserial"].map
    String.toList

/-- The text type family of `_types_compatible`. -/
def textTypeNames : List (List Char) :=
  ["varchar", "character varying", "text", "char", "character", "name"].map String.toList

/-- Python's `sub in s` substring test. -/
def isSubstrOf (sub cs : List Char) : Bool :=
  (List.range (cs.length + 1)).any fun i => List.isPrefixOf sub (cs.drop i)

/-- `RelationshipAnalyzer._types_compatible`. -/
def typesCompatible (type1 type2 : String) : Bool :=
  let t1 := baseTypeName type1
  let t2 := baseTypeName type2
  if t1 = t2 then true
  else if t1 ∈ intTypeNames ∧ t2 ∈ intTypeNames then true
  else if t1 ∈ textTypeNames ∧ t2 ∈ textTypeNames then true
  else if isSubstrOf "uuid".toList t1 ∧ isSubstrOf "uuid".toList t2 then true
  else false

/-- `RelationshipAnalyzer._is_integer_type`. -/
def isIntegerType (dataType : String) : Bool :=
  baseTypeName dataType ∈ intTypeNames

/-- `RelationshipAnalyzer._calculate_column_similarity`: name-similarity of
the lowercased names (weight 0.5) + type compatibility (0.3) + both-integers
bonus (0.2). -/
def calculateColumnSimilarity (col1 col2 : ColumnInfo) : ℚ :=
  ratioOf (toLowerList col1.name.toList) (toLowerList col2.name.toList) * mkRat 1 2 +
    (if typesCompatible col1.dataType col2.dataType then mkRat 3 10 else 0) +
    (if isIntegerType col1.dataType ∧ isIntegerType col2.dataType then mkRat 1 5 else 0)

/-- The candidate columns the similarity loop scores for a given source
column: every primary-key column of every *other* table, in iteration
order. -/
def simCandidates (md : DatabaseMetadata) (table : TableInfo) : List (String × ColumnInfo) :=
  md.tables.flatMap fun otherTable =>
    if otherTable.name == table.name then []
    else otherTable.columns.filterMap fun otherCol =>
      if otherCol.isPrimaryKey then some (otherTable.name, otherCol) else none

/-- One iteration of the `best_match`/`best_score` loop of
`_detect_similarity_relationships`: update when
`score >= threshold and score > best_score`. -/
def simFoldStep (cfg : AnalysisConfig) (column : ColumnInfo)
    (acc : Option (String × String) × ℚ) (cand : String × ColumnInfo) :
    Option (String × String) × ℚ :=
  let score := calculateColumnSimilarity column cand.2
  if cfg.similarityThreshold ≤ score ∧ acc.2 < score then (some (cand.1, cand.2.name), score)
  else acc

/-- The `best_match` result of the loop, starting from `(None, 0.0)`. -/
def bestSimMatch (cfg : AnalysisConfig) (md : DatabaseMetadata) (table : TableInfo)
    (column : ColumnInfo) : Option (String × String) :=
  ((simCandidates md table).foldl (simFoldStep cfg column) (none, 0)).1

/-- One iteration of `_detect_similarity_relationships`' column loop. -/
def similarityCandidate (cfg : AnalysisConfig) (md : DatabaseMetadata)
    (existingRels : List DetectedRelationship) (table : TableInfo)
    (column : ColumnInfo) : Option DetectedRelationship :=
  if (table.name, column.name) ∈ claimedPairs existingRels then none
  else if column.isPrimaryKey then none
  else
    (bestSimMatch cfg md table column).map fun best =>
      { sourceTable := table.name
        sourceColumn := column.name
        targetTable := best.1
        targetColumn := best.2
        confidence := .low
        detectionMethod := "similarity_analysis" }

/-- `RelationshipAnalyzer._detect_similarity_relationships`. -/
def detectSimilarityRelationships (cfg : AnalysisConfig) (md : DatabaseMetadata)
    (existingRels : List DetectedRelationship) : List DetectedRelationship :=
  md.tables.flatMap fun table =>
    table.columns.filterMap (similarityCandidate cfg md existingRels table)

/-- `RelationshipAnalyzer.analyze`, restricted to the relationship list it
computes and stores in `metadata.detected_relationships` (the graph it also
builds on `self` is modelled separately). -/
def analyze (cfg : AnalysisConfig) (md : DatabaseMetadata) : List DetectedRelationship :=
  let fkRelationships := extractFkRelationships md
  let namingRelationships := detectNamingRelationships md fkRelationships
  let tierOneTwo := fkRelationships ++ namingRelationships
  let similarityRelationships := detectSimilarityRelationships cfg md tierOneTwo
  tierOneTwo ++ similarityRelationships



/-! ## Relationship graph (`pipeline_builder.py` lines 35-103)

`networkx.DiGraph`: a set of nodes and at most one attributed edge per
ordered node pair; `add_edge` inserts missing endpoints as nodes and
*overwrites* the attributes of an existing edge. -/

/-- The attribute dict `{source_column, target_column, confidence, weight}`
stored on each edge by `_build_relationship_graph`. -/
structure EdgeData where
  sourceColumn : String
  targetColumn : String
  confidence : RelationshipConfidence
  weight : Nat
deriving DecidableEq, Repr

/-- A `networkx.DiGraph` as used by the pipeline builder. -/
structure RelGraph where
  nodes : List String
  edges : List (String × String × EdgeData)
deriving DecidableEq, Repr

/-- `graph.add_node` (no-op when present). -/
def addNode (g : RelGraph) (n : String) : RelGraph :=
  if n ∈ g.nodes then g else { g with nodes := g.nodes ++ [n] }

/-- Replace the attributes of the `(u, v)` edge, or append it. -/
def setEdge (u v : String) (d : EdgeData) :
    List (String × String × EdgeData) → List (String × String × EdgeData)
  | [] => [(u, v, d)]
  | e :: rest =>
    if e.1 = u ∧ e.2.1 = v then (u, v, d) :: rest else e :: setEdge u v d rest

/-- `graph.add_edge(u, v, **attrs)`: add missing endpoints, then set the
single `(u, v)` edge's attributes (overwriting any previous ones). -/
def addEdge (g : RelGraph) (u v : String) (d : EdgeData) : RelGraph :=
  let g' := addNode (addNode g u) v
  { g' with edges := setEdge u v d g'.edges }

/-- `graph.get_edge_data(u, v)`. -/
def edgeData (g : RelGraph) (u v : String) : Option EdgeData :=
  (g.edges.find? fun e => decide (e.1 = u ∧ e.2.1 = v)).map (·.2.2)

/-- The weight dict `{HIGH: 1, MEDIUM: 2, LOW: 3}.get(confidence, 3)` of
`_build_relationship_graph` (total on the enum, so the default is dead). -/
def confidenceWeight : RelationshipConfidence → Nat
  | .high => 1
  | .medium => 2
  | .low => 3

/-- One iteration of `_build_relationship_graph`'s relationship loop: add
the forward edge and the reverse edge with the columns swapped and the same
weight. -/
def addRelationshipEdges (g : RelGraph) (rel : DetectedRelationship) : RelGraph :=
  let w := confidenceWeight rel.confidence
  let g := addEdge g rel.sourceTable rel.targetTable
    ⟨rel.sourceColumn, rel.targetColumn, rel.confidence, w⟩
  addEdge g rel.targetTable rel.sourceTable
    ⟨rel.targetColumn, rel.sourceColumn, rel.confidence, w⟩

/-- `PipelineBuilder._build_relationship_graph`: every table becomes a node,
then every relationship adds its two edges. -/
def buildRelationshipGraph (md : DatabaseMetadata) : RelGraph :=
  let g := md.tables.foldl (fun g t => addNode g t.name) ⟨[], []⟩
  md.detectedRelationships.foldl addRelationshipEdges g

/-! Dijkstra over nonnegative weights computes the minimum total weight over
all simple paths between its endpoints, and `nx.dijkstra_path` returns one
minimising path; the embedding defines exactly that extensionally. -/

/-- Every consecutive pair of the list is an edge of `g` (and the list is
nonempty, as networkx paths are). -/
def isChain (g : RelGraph) : List String → Bool
  | [] => false
  | [_] => true
  | u :: v :: rest => (edgeData g u v).isSome && isChain g (v :: rest)

/-- The weight attribute of the `(u, v)` edge (`0` when absent; on a chain
every edge is present). -/
def edgeWeight (g : RelGraph) (u v : String) : Nat :=
  match edgeData g u v with
  | some d => d.weight
  | none => 0

/-- Total weight of the consecutive edges of a node list. -/
def chainCost (g : RelGraph) : List String → Nat
  | u :: v :: rest => edgeWeight g u v + chainCost g (v :: rest)
  | _ => 0

/-- `p` is a simple path of `g` from `u` to `v`. -/
def isSimplePath (g : RelGraph) (u v : String) (p : List String) : Bool :=
  p.head? == some u && p.getLast? == some v && decide p.Nodup && isChain g p &&
    p.all (fun x => decide (x ∈ g.nodes))

/-- All ways of inserting `a` into a list (used to enumerate permutations by
structural recursion, which the kernel can evaluate). -/
def insertsOf (a : α) : List α → List (List α)
  | [] => [[a]]
  | b :: bs => (a :: b :: bs) :: (insertsOf a bs).map (b :: ·)

/-- All permutations of a list (structurally recursive enumeration). -/
def permsOf : List α → List (List α)
  | [] => [[]]
  | a :: as => (permsOf as).flatMap (insertsOf a)

/-- A finite list containing every duplicate-free list over the nodes of `g`
(hence every simple path of `g`). -/
def candidatePaths (g : RelGraph) : List (List String) :=
  g.nodes.dedup.sublists.flatMap permsOf

/-- All simple paths of `g` from `u` to `v`. -/
def pathsBetween (g : RelGraph) (u v : String) : List (List String) :=
  (candidatePaths g).filter (isSimplePath g u v)

/-- Minimum of a list of costs. -/
def minCostList : List Nat → Option Nat
  | [] => none
  | c :: cs =>
    match minCostList cs with
    | none => some c
    | some m => some (min c m)

/-- `nx.dijkstra_path_length`: minimum total weight over all simple paths
(`none` when unreachable, matching the `NetworkXNoPath` exception). -/
def shortestCost (g : RelGraph) (u v : String) : Option Nat :=
  minCostList ((pathsBetween g u v).map (chainCost g))

/-- `nx.dijkstra_path`: a simple path of minimum total weight (`none` when
unreachable). -/
def dijkstraPathOf (g : RelGraph) (u v : String) : Option (List String) :=
  match shortestCost g u v with
  | none => none
  | some m => (pathsBetween g u v).find? fun p => chainCost g p == m

/-- `JoinCondition` from `models/pipeline.py` (`operator` defaults to `=`). -/
structure JoinCondition where
  leftTable : String
  leftColumn : String
  rightTable : String
  rightColumn : String
  operator : String := "="
deriving DecidableEq, Repr

/-- `JoinPath` from `models/pipeline.py`. `total_cost` is a float in the
model but always holds the integer sum of edge weights here. -/
structure JoinPath where
  tables : List String
  joins : List JoinCondition
  totalCost : Nat
deriving DecidableEq, Repr

/-- The loop of `find_join_path` building one `JoinCondition` per consecutive
pair from the stored edge attributes (on a chain every lookup succeeds; the
`none` fallback is never taken there). -/
def joinsOfPath (g : RelGraph) : List String → List JoinCondition
  | u :: v :: rest =>
    (match edgeData g u v with
     | some d => [{ leftTable := u, leftColumn := d.sourceColumn,
                    rightTable := v, rightColumn := d.targetColumn }]
     | none => []) ++ joinsOfPath g (v :: rest)
  | _ => []

/-- `PipelineBuilder.find_join_path`: Dijkstra path and length, `None` on
`NetworkXNoPath` or when the path has fewer than 2 nodes.  (When an endpoint
is not a node of the graph networkx raises `NodeNotFound`, which the code
does not catch; the embedding is only quantified over endpoints that are
nodes.) -/
def find_join_path (g : RelGraph) (fromTable toTable : String) : Option JoinPath :=
  match dijkstraPathOf g fromTable toTable, shortestCost g fromTable toTable with
  | some path, some totalCost =>
    if path.length < 2 then none
    else some { tables := path, joins := joinsOfPath g path, totalCost := totalCost }
  | _, _ => none

/-! ## Pipeline synthesis (`pipeline_builder.py` lines 130-319)

Python exceptions become `Except String`; the uuid-suffixed `pipeline_id` /
`dataset_id` / `source_pipeline` fields are nondeterministic fresh names and
are omitted (no claim mentions them). -/

/-- `JoinType` from `models/pipeline.py`. -/
inductive JoinType where
  | inner
  | left
  | right
  | full
  | cross
deriving DecidableEq, Repr

/-- The `.value` of the Python `str`-enum. -/
def JoinType.value : JoinType → String
  | .inner => "INNER"
  | .left => "LEFT"
  | .right => "RIGHT"
  | .full => "FULL"
  | .cross => "CROSS"

/-- `ColumnMapping` (the optional `alias`/`transformation`/`aggregation`
fields are never set by the pipeline builder and are omitted). -/
structure ColumnMapping where
  sourceTable : String
  sourceColumn : String
  targetName : String
deriving DecidableEq, Repr

/-- `PipelineStep` as constructed by `create_pipeline` (the
filter/aggregate-only optional fields it never sets are omitted). -/
structure PipelineStep where
  stepId : String
  stepName : String
  stepType : String
  description : String
  joinType : JoinType
  joinConditions : List JoinCondition
deriving DecidableEq, Repr

/-- `Pipeline` (without the uuid `pipeline_id`). -/
structure Pipeline where
  name : String
  description : String
  sourceTables : List String
  steps : List PipelineStep
  outputColumns : List ColumnMapping
deriving DecidableEq, Repr

/-- The join-step loop of `create_pipeline`: `i` is the running step index,
`base` the running base table; the first failing pair raises. -/
def buildJoinSteps (g : RelGraph) (joinType : JoinType) (i : Nat) (base : String) :
    List String → Except String (List PipelineStep)
  | [] => .ok []
  | targetTable :: rest =>
    match (find_join_path g base targetTable).orElse
        (fun _ => find_join_path g targetTable base) with
    | none =>
      .error ("无法找到表 '" ++ base ++ "' 和 '" ++ targetTable ++ "' 之间的连接路径")
    | some joinPath =>
      match buildJoinSteps g joinType (i + 1) targetTable rest with
      | .error e => .error e
      | .ok steps =>
        .ok ({ stepId := "step_" ++ toString i
               stepName := "Join with " ++ targetTable
               stepType := "join"
               description :=
                 "将 " ++ base ++ " 与 " ++ targetTable ++ " 进行 " ++ joinType.value ++ " JOIN"
               joinType := joinType
               joinConditions := joinPath.joins } :: steps)

/-- The column-mapping loop of `create_pipeline`. -/
def outputColumnsFor (md : DatabaseMetadata) (sourceTables : List String)
    (selectedColumns : Option (List (String × List String))) : List ColumnMapping :=
  sourceTables.flatMap fun tableName =>
    match tableLookup md.tables tableName with
    | none => ([] : List ColumnMapping)
    | some table =>
      let columnsToInclude : List ColumnInfo :=
        match selectedColumns with
        | some sel =>
          match sel.find? (fun (p : String × List String) => p.1 == tableName) with
          | some p => table.columns.filter (fun c => decide (c.name ∈ p.2))
          | none => table.columns
        | none => table.columns
      columnsToInclude.map fun col =>
        { sourceTable := tableName
          sourceColumn := col.name
          targetName :=
            if 1 < sourceTables.length then tableName ++ "_" ++ col.name else col.name }

/-- `PipelineBuilder.create_pipeline`.  The unused `include_all_columns`
parameter is kept for fidelity. -/
def create_pipeline (md : DatabaseMetadata) (name : String) (sourceTables : List String)
    (joinType : JoinType := .left) (includeAllColumns : Bool := true)
    (selectedColumns : Option (List (String × List String)) := none) :
    Except String Pipeline :=
  if sourceTables.length < 2 then
    .error "At least 2 tables required to create a join pipeline"
  else
    match sourceTables with
    | [] => .error "At least 2 tables required to create a join pipeline"
    | base :: rest =>
      let _ := includeAllColumns
      match buildJoinSteps (buildRelationshipGraph md) joinType 1 base rest with
      | .error e => .error e
      | .ok steps =>
        .ok { name := name
              description := "自动生成的管道，连接表: " ++ String.intercalate ", " sourceTables
              sourceTables := sourceTables
              steps := steps
              outputColumns := outputColumnsFor md sourceTables selectedColumns }

/-- `Dataset` as constructed by `generate_datasets` (without the uuid
`dataset_id`/`source_pipeline` fields). -/
structure Dataset where
  name : String
  description : String
  columns : List ColumnMapping
  creationReason : String
deriving DecidableEq, Repr

/-- `tuple(sorted([a, b]))`: the unordered pair key used for deduplication. -/
def pairKeyOf (a b : String) : String × String := if b < a then (b, a) else (a, b)

/-- The `Dataset` built from a relationship and its synthesized pipeline. -/
def mkDataset (rel : DetectedRelationship) (pl : Pipeline) : Dataset :=
  { name := rel.sourceTable ++ "_" ++ rel.targetTable ++ "_dataset"
    description :=
      "通过 " ++ rel.sourceColumn ++ " -> " ++ rel.targetColumn ++ " 关系连接的数据集"
    columns := pl.outputColumns
    creationReason :=
      "基于外键关系 " ++ rel.sourceTable ++ "." ++ rel.sourceColumn ++ " -> " ++
        rel.targetTable ++ "." ++ rel.targetColumn ++ " 自动生成" }

/-- One iteration of `generate_datasets`' relationship loop, carrying the
`(datasets, processed_pairs)` state: HIGH-confidence relationships only, one
attempt per unordered pair, `create_pipeline` failures swallowed
(`except Exception: pass`). -/
def generateStep (md : DatabaseMetadata) (acc : List Dataset × List (String × String))
    (rel : DetectedRelationship) : List Dataset × List (String × String) :=
  if rel.confidence = .high then
    let pairKey := pairKeyOf rel.sourceTable rel.targetTable
    if pairKey ∈ acc.2 then acc
    else
      match create_pipeline md (rel.sourceTable ++ "_" ++ rel.targetTable ++ "_joined")
          [rel.sourceTable, rel.targetTable] with
      | .ok pl => (acc.1 ++ [mkDataset rel pl], acc.2 ++ [pairKey])
      | .error _ => (acc.1, acc.2 ++ [pairKey])
  else acc

/-- `PipelineBuilder.generate_datasets`. -/
def generateDatasets (md : DatabaseMetadata) : List Dataset :=
  (md.detectedRelationships.foldl (generateStep md) ([], [])).1

/-- One entry of a hub recommendation's `relations` list. -/
structure RelationSummary where
  target : String
  via : String
  confidence : String
deriving DecidableEq, Repr

/-- A recommendation dict from `get_join_recommendations` (`type` field
rendered as `rtype`; isolated-table dicts carry no `relations` key, modelled
as the empty list). -/
structure Recommendation where
  table : String
  rtype : String
  description : String
  suggestion : String
  relations : List RelationSummary
deriving DecidableEq, Repr

/-- One iteration of `get_join_recommendations`' table loop: collect the
relationships in which the table is the declared *source*; `≥ 2` outgoing
flags `hub_table`, `0` outgoing flags `isolated_table`, otherwise no
entry. -/
def recommendationFor (md : DatabaseMetadata) (table : TableInfo) : Option Recommendation :=
  let directRelations := md.detectedRelationships.filterMap fun rel =>
    if rel.sourceTable == table.name then
      some { target := rel.targetTable
             via := rel.sourceColumn ++ " -> " ++ rel.targetColumn
             confidence := rel.confidence.value : RelationSummary }
    else none
  let relatedCount := directRelations.length
  if 2 ≤ relatedCount then
    some { table := table.name
           rtype := "hub_table"
           description :=
             "表 '" ++ table.name ++ "' 是一个枢纽表，连接了 " ++ toString relatedCount ++
               " 个其他表"
           suggestion := "建议创建以 '" ++ table.name ++ "' 为核心的星型模式数据集"
           relations := directRelations }
  else if relatedCount = 0 then
    some { table := table.name
           rtype := "isolated_table"
           description := "表 '" ++ table.name ++ "' 是孤立表，没有检测到与其他表的关系"
           suggestion := "建议检查是否缺少外键约束或命名不符合规范"
           relations := [] }
  else none

/-- `PipelineBuilder.get_join_recommendations`. -/
def getJoinRecommendations (md : DatabaseMetadata) : List Recommendation :=
  md.tables.filterMap (recommendationFor md)

/-! ## Derived notions and concrete schemas used by the verification -/

/-- The number of relationships in which a table is the declared source
(`get_join_recommendations` counts exactly these). -/
def outgoingCount (md : DatabaseMetadata) (name : String) : Nat :=
  (md.detectedRelationships.filter fun r => r.sourceTable == name).length

/-- The consecutive pairs of the requested chain:
`(tables[i], tables[i+1])`. -/
def consecPairs (l : List String) : List (String × String) := l.zip l.tail

/-- The reverse edge's attributes: columns swapped, same confidence and
weight. -/
def swapEdge (d : EdgeData) : EdgeData :=
  ⟨d.targetColumn, d.sourceColumn, d.confidence, d.weight⟩

/-- The graph stores mirrored attributes on the two directions of every
edge between distinct nodes. -/
def mirrorInv (g : RelGraph) : Prop :=
  ∀ u v, u ≠ v → edgeData g v u = (edgeData g u v).map swapEdge

/-- The consecutive pairs of a walk. -/
def chainPairs : List String → List (String × String)
  | u :: v :: rest => (u, v) :: chainPairs (v :: rest)
  | _ => []

/-- The first-occurrence representative of each unordered table pair among
the HIGH-confidence relationships (`seen` is the set of pair keys already
processed) — the declarative description of `generate_datasets`'
deduplication. -/
def dedupHighFirst : List DetectedRelationship → List (String × String) →
    List DetectedRelationship
  | [], _ => []
  | rel :: rest, seen =>
    if rel.confidence = .high ∧ pairKeyOf rel.sourceTable rel.targetTable ∉ seen then
      rel :: dedupHighFirst rest (seen ++ [pairKeyOf rel.sourceTable rel.targetTable])
    else dedupHighFirst rest seen

/-- The dataset `generate_datasets` synthesizes for one relationship:
`none` exactly when `create_pipeline` raises. -/
def attemptDataset (md : DatabaseMetadata) (rel : DetectedRelationship) : Option Dataset :=
  (create_pipeline md (rel.sourceTable ++ "_" ++ rel.targetTable ++ "_joined")
      [rel.sourceTable, rel.targetTable]).toOption.map (mkDataset rel)

/-- Two tables, two relationships on the same ordered pair: HIGH inserted
first, LOW second. -/
def mdParallelHL : DatabaseMetadata :=
  { tables := [⟨"a", [], []⟩, ⟨"b", [], []⟩]
    detectedRelationships :=
      [⟨"a", "x", "b", "y", .high, "foreign_key_constraint"⟩,
       ⟨"a", "c", "b", "d", .low, "similarity_analysis"⟩] }

/-- Two tables, two relationships on the same ordered pair: LOW inserted
first, HIGH second. -/
def mdParallelLH : DatabaseMetadata :=
  { tables := [⟨"a", [], []⟩, ⟨"b", [], []⟩]
    detectedRelationships :=
      [⟨"a", "c", "b", "d", .low, "similarity_analysis"⟩,
       ⟨"a", "x", "b", "y", .high, "foreign_key_constraint"⟩] }

/-- The `products`/`categories` schema of the spec's pluralization example
and of the repo's own `test_detect_naming_relationships`. -/
def mdCategories : DatabaseMetadata :=
  { tables :=
      [⟨"products", [⟨"id", "integer", true⟩, ⟨"category_id", "integer", false⟩], []⟩,
       ⟨"categories", [⟨"id", "integer", true⟩, ⟨"name", "varchar", false⟩], []⟩] }

/-- A table whose column `user_id` carries two declared foreign-key
constraints (legal in SQL). -/
def mdDoubleFk : DatabaseMetadata :=
  { tables :=
      [⟨"orders", [⟨"user_id", "integer", false⟩],
        [⟨"fk_orders_user", "user_id", "users", "id"⟩,
         ⟨"fk_orders_account", "user_id", "accounts", "id"⟩]⟩] }

/-- The repo test's `users`/`orders` fragment: `orders.user_id` has both a
declared FK to `users.id` and a naming-convention match. -/
def mdFkNaming : DatabaseMetadata :=
  { tables :=
      [⟨"users", [⟨"id", "integer", true⟩], []⟩,
       ⟨"orders", [⟨"id", "integer", true⟩, ⟨"user_id", "integer", false⟩],
        [⟨"fk_orders_user", "user_id", "users", "id"⟩]⟩] }

/-- Two tables joined by a single relationship `a.x → b.y`: `b` participates
in exactly one relationship, as its target. -/
def mdOneIncoming : DatabaseMetadata :=
  { tables := [⟨"a", [], []⟩, ⟨"b", [], []⟩]
    detectedRelationships := [⟨"a", "x", "b", "y", .high, "foreign_key_constraint"⟩] }

/-- A self-referencing relationship (e.g. `employees.manager_id →
employees.id`). -/
def mdSelfRef : DatabaseMetadata :=
  { tables := [⟨"employees", [], []⟩]
    detectedRelationships :=
      [⟨"employees", "manager_id", "employees", "id", .high, "foreign_key_constraint"⟩] }

/-- A hub table `h` with three outgoing relationships, plus its targets. -/
def mdHub : DatabaseMetadata :=
  { tables := [⟨"h", [], []⟩, ⟨"a", [], []⟩, ⟨"b", [], []⟩, ⟨"c", [], []⟩]
    detectedRelationships :=
      [⟨"h", "a_id", "a", "id", .high, "foreign_key_constraint"⟩,
       ⟨"h", "b_id", "b", "id", .medium, "naming_convention"⟩,
       ⟨"h", "c_id", "c", "id", .low, "similarity_analysis"⟩] }

/-- Two tables whose only similarity-tier candidate pair scores exactly
`0.8`: name ratio `0.6`, compatible integer types (`+0.3`), integer bonus
(`+0.2`). -/
def mdSimBoundary : DatabaseMetadata :=
  { tables :=
      [⟨"t1", [⟨"abcxy", "integer", false⟩], []⟩,
       ⟨"t2", [⟨"abczw", "bigint", true⟩], []⟩] }

/-! ## Cross-checks of the `SequenceMatcher` embedding against reference
values of `difflib` -/

example : ratioOf "abcxy".toList "abczw".toList = mkRat 3 5 := by decide

example : ratioOf "abab".toList "bab".toList = mkRat 6 7 := by decide

example : ratioOf "xaybzc".toList "aybz".toList = mkRat 4 5 := by decide

example : ratioOf "category_id".toList "id".toList = mkRat 4 13 := by decide

example : ratioOf [] [] = 1 := by decide

example : extractTableNameFromColumn "user_id" = some "users" := by decide

example : extractTableNameFromColumn "userId" = some "users" := by decide

set_option maxRecDepth 4000 in
unseal Rat.mul Rat.add in
example :
    calculateColumnSimilarity ⟨"abcxy", "integer", false⟩ ⟨"abczw", "bigint", true⟩ =
      mkRat 4 5 := by decide

/-! ## C1 — parallel relationships between one ordered table pair -/

/-- C1, counterexample: with a HIGH (weight 1) relationship `a.x → b.y`
inserted first and a LOW (weight 3) relationship `a.c → b.d` inserted second
on the same ordered pair, the shortest path from `a` to `b` does NOT have
cost 1 — `nx.DiGraph.add_edge` overwrote the HIGH edge's attributes, so no
parallel edge survives and the claimed lowest-weight-wins semantics fails in
this insertion order. -/
theorem c1_counterexample :
    ¬ ∃ jp, find_join_path (buildRelationshipGraph mdParallelHL) "a" "b" = some jp ∧
        jp.totalCost = 1 := by decide

/-- C1, amended: the `DiGraph` keeps a single edge per ordered table pair
and a later relationship between the same ordered pair overwrites the
earlier edge's weight and join columns, so shortest-path queries use the
most recently inserted relationship: HIGH-then-LOW insertion yields cost 3
with the LOW columns, LOW-then-HIGH insertion yields cost 1 with the HIGH
columns. -/
theorem c1_amended :
    edgeData (buildRelationshipGraph mdParallelHL) "a" "b" = some ⟨"c", "d", .low, 3⟩ ∧
    find_join_path (buildRelationshipGraph mdParallelHL) "a" "b" =
      some ⟨["a", "b"], [⟨"a", "c", "b", "d", "="⟩], 3⟩ ∧
    edgeData (buildRelationshipGraph mdParallelLH) "a" "b" = some ⟨"x", "y", .high, 1⟩ ∧
    find_join_path (buildRelationshipGraph mdParallelLH) "a" "b" =
      some ⟨["a", "b"], [⟨"a", "x", "b", "y", "="⟩], 1⟩ := by decide

/-! ## C2 — naming-convention pluralization on `category_id` -/

/-- C2: on the spec's own example schema (`products.category_id`, table
`categories`, no declared FK) the naming tier emits NOTHING: the stem
`category` is naively pluralized to `categorys`, which matches no table.
The repo's own test `test_detect_naming_relationships` asserts that a
MEDIUM relationship is emitted for this very schema, so the code contradicts
its own test suite (code bug; evaluation of the code at the failing input). -/
theorem c2_code_bug_eval :
    extractTableNameFromColumn "category_id" = some "categorys" ∧
    detectNamingRelationships mdCategories (extractFkRelationships mdCategories) = [] := by
  decide

/-! ## C3 — per-tier uniqueness and tier pre-emption -/

/-- C3, counterexample: a column carrying two declared foreign-key
constraints (legal in SQL) makes the explicit-FK tier emit TWO
relationships for the same `(source_table, source_column)` pair, refuting
"at most one DetectedRelationship per detection tier for that pair". -/
theorem c3_counterexample :
    ¬ ((analyze {} mdDoubleFk).filter fun r =>
        r.sourceTable == "orders" && r.sourceColumn == "user_id" &&
          r.detectionMethod == "foreign_key_constraint").length ≤ 1 := by decide

/-! ## C4 — hub / isolated recommendation classification -/

/-- C4, counterexample: in a schema where table `b` participates in exactly
one relationship — as its target — `get_join_recommendations` flags `b`
"isolated_table" (it counts only relationships where the table is the
declared source), refuting "a table that participates in exactly 1
relationship is flagged neither ... regardless of whether that single
relationship lists the table as source or as target". -/
theorem c4_counterexample :
    ((mdOneIncoming.detectedRelationships.filter fun r =>
        r.sourceTable == "b" || r.targetTable == "b").length = 1) ∧
    (getJoinRecommendations mdOneIncoming).map (fun r => (r.table, r.rtype)) =
      [("b", "isolated_table")] := by decide

/-! ## C5 — graph symmetry -/

/-- C5, counterexample: for a self-referencing DetectedRelationship
(`employees.manager_id → employees.id`, so A = B = `employees`),
`shortest_path(A, B)` returns `None` (single-node Dijkstra path, rejected by
the `len(path) < 2` guard), refuting "both return a path (not None)" as
stated for every DetectedRelationship. -/
theorem c5_counterexample :
    (∃ rel ∈ mdSelfRef.detectedRelationships,
        rel.sourceTable = "employees" ∧ rel.targetTable = "employees") ∧
    find_join_path (buildRelationshipGraph mdSelfRef) "employees" "employees" = none := by
  decide

/-! ## C10 — detection output is independent of `fk_column_patterns` -/

/-- C10: `analyze` produces identical DetectedRelationship lists under any
two configurations agreeing on `similarity_threshold`, however their
`fk_column_patterns` differ — the configured patterns are compiled at
construction for validation only and never consulted; the naming tier uses
its fixed hardcoded pattern list. -/
theorem c10_fk_patterns_unused (md : DatabaseMetadata) (cfg1 cfg2 : AnalysisConfig)
    (h : cfg1.similarityThreshold = cfg2.similarityThreshold) :
    analyze cfg1 md = analyze cfg2 md := by
  obtain ⟨p1, s1⟩ := cfg1
  obtain ⟨p2, s2⟩ := cfg2
  simp only at h
  subst h
  rfl

/-- C10, witness: two default-threshold configurations with different
pattern lists give the same analysis of the `products`/`categories`
schema. -/
theorem c10_witness :
    (({ fkColumnPatterns := ["_id$", "_fk$", "Id$"] } : AnalysisConfig).similarityThreshold =
      ({ fkColumnPatterns := ["^custom"] } : AnalysisConfig).similarityThreshold) ∧
    analyze { fkColumnPatterns := ["_id$", "_fk$", "Id$"] } mdCategories =
      analyze { fkColumnPatterns := ["^custom"] } mdCategories :=
  ⟨by decide, c10_fk_patterns_unused mdCategories _ _ (by decide)⟩

/-- The length of the `direct_relations` list built for a table equals its
outgoing-relationship count. -/
theorem directRelations_length (md : DatabaseMetadata) (name : String)
    (f : DetectedRelationship → RelationSummary) :
    (md.detectedRelationships.filterMap fun rel =>
      if rel.sourceTable == name then some (f rel) else none).length =
      outgoingCount md name := by
  unfold outgoingCount
  induction md.detectedRelationships with
  | nil => rfl
  | cons a l ih =>
    simp only [beq_iff_eq] at ih ⊢
    by_cases hp : a.sourceTable = name <;>
      simp [List.filterMap_cons, List.filter_cons, hp, ih]

/-- `recommendationFor` flags hub tables. -/
theorem recommendationFor_hub (md : DatabaseMetadata) (t : TableInfo)
    (h2 : 2 ≤ outgoingCount md t.name) :
    ∃ r, recommendationFor md t = some r ∧ r.table = t.name ∧ r.rtype = "hub_table" := by
  unfold recommendationFor
  simp only [directRelations_length md t.name]
  rw [if_pos h2]
  exact ⟨_, rfl, rfl, rfl⟩

/-- `recommendationFor` flags isolated tables. -/
theorem recommendationFor_isolated (md : DatabaseMetadata) (t : TableInfo)
    (h0 : outgoingCount md t.name = 0) :
    ∃ r, recommendationFor md t = some r ∧ r.table = t.name ∧ r.rtype = "isolated_table" := by
  unfold recommendationFor
  simp only [directRelations_length md t.name]
  rw [if_neg (by omega), if_pos h0]
  exact ⟨_, rfl, rfl, rfl⟩

/-- Any recommendation names its table and comes from a hub or isolated
count. -/
theorem recommendationFor_cases (md : DatabaseMetadata) (t : TableInfo) (r : Recommendation)
    (h : recommendationFor md t = some r) :
    r.table = t.name ∧ (2 ≤ outgoingCount md t.name ∨ outgoingCount md t.name = 0) := by
  unfold recommendationFor at h
  simp only [directRelations_length md t.name] at h
  by_cases h2 : 2 ≤ outgoingCount md t.name
  · rw [if_pos h2] at h
    cases h
    exact ⟨rfl, Or.inl h2⟩
  · rw [if_neg h2] at h
    by_cases h0 : outgoingCount md t.name = 0
    · rw [if_pos h0] at h
      cases h
      exact ⟨rfl, Or.inr h0⟩
    · rw [if_neg h0] at h
      cases h

/-- C4, amended: classification depends only on the *outgoing* relationship
count (relationships where the table is the declared source): at least 2
outgoing flags "hub_table", exactly 0 outgoing flags "isolated_table" (even
when the table is the target of relationships), and exactly 1 outgoing flags
neither; a table whose only relationship is incoming counts as 0 outgoing
and is therefore flagged "isolated_table". -/
theorem c4_amended (md : DatabaseMetadata) (t : TableInfo) (h : t ∈ md.tables) :
    (2 ≤ outgoingCount md t.name →
      ∃ r ∈ getJoinRecommendations md, r.table = t.name ∧ r.rtype = "hub_table") ∧
    (outgoingCount md t.name = 0 →
      ∃ r ∈ getJoinRecommendations md, r.table = t.name ∧ r.rtype = "isolated_table") ∧
    (outgoingCount md t.name = 1 →
      ∀ r ∈ getJoinRecommendations md, r.table ≠ t.name) := by
  refine ⟨fun h2 => ?_, fun h0 => ?_, fun h1 r hr => ?_⟩
  · obtain ⟨r, hfr, hname, htype⟩ := recommendationFor_hub md t h2
    exact ⟨r, List.mem_filterMap.mpr ⟨t, h, hfr⟩, hname, htype⟩
  · obtain ⟨r, hfr, hname, htype⟩ := recommendationFor_isolated md t h0
    exact ⟨r, List.mem_filterMap.mpr ⟨t, h, hfr⟩, hname, htype⟩
  · intro hname
    obtain ⟨t', _, hfr⟩ := List.mem_filterMap.mp hr
    obtain ⟨hname', hcount⟩ := recommendationFor_cases md t' r hfr
    rw [hname'] at hname
    rw [hname] at hcount
    omega

/-- C4, witness: in the `mdHub` schema, `h` has 3 outgoing relationships and
is flagged "hub_table". -/
theorem c4_witness :
    (⟨"h", [], []⟩ : TableInfo) ∈ mdHub.tables ∧
    2 ≤ outgoingCount mdHub "h" ∧
    (∃ r ∈ getJoinRecommendations mdHub, r.table = "h" ∧ r.rtype = "hub_table") :=
  ⟨by decide, by decide, (c4_amended mdHub ⟨"h", [], []⟩ (by decide)).1 (by decide)⟩

/-! ## C3 — helper lemmas on the tier candidate functions -/

/-- A naming-tier candidate names its own table/column pair, is not an
already-claimed pair, and is a MEDIUM naming-convention relationship. -/
theorem namingCandidate_spec {md : DatabaseMetadata} {ex : List DetectedRelationship}
    {t : TableInfo} {c : ColumnInfo} {r : DetectedRelationship}
    (h : namingCandidate md ex t c = some r) :
    r.sourceTable = t.name ∧ r.sourceColumn = c.name ∧
      (t.name, c.name) ∉ claimedPairs ex ∧
      r.confidence = .medium ∧ r.detectionMethod = "naming_convention" := by
  unfold namingCandidate at h
  split at h
  · cases h
  · split at h
    · cases h
    · split at h
      · cases h
      · split at h
        · cases h
        · split at h
          · cases h
          · cases h
            exact ⟨rfl, rfl, by assumption, rfl, rfl⟩

/-- A similarity-tier candidate names its own table/column pair, is not an
already-claimed pair, and is a LOW similarity relationship. -/
theorem similarityCandidate_spec {cfg : AnalysisConfig} {md : DatabaseMetadata}
    {ex : List DetectedRelationship} {t : TableInfo} {c : ColumnInfo}
    {r : DetectedRelationship}
    (h : similarityCandidate cfg md ex t c = some r) :
    r.sourceTable = t.name ∧ r.sourceColumn = c.name ∧
      (t.name, c.name) ∉ claimedPairs ex ∧
      r.confidence = .low ∧ r.detectionMethod = "similarity_analysis" := by
  unfold similarityCandidate at h
  split at h
  · cases h
  · split at h
    · cases h
    · cases hb : bestSimMatch cfg md t c with
      | none => rw [hb] at h; cases h
      | some best =>
        rw [hb] at h
        cases h
        exact ⟨rfl, rfl, by assumption, rfl, rfl⟩

/-- Every emission of a column loop carries the name of one of the columns. -/
theorem filterMap_sourceColumn_mem {F : ColumnInfo → Option DetectedRelationship}
    {cols : List ColumnInfo}
    (hF : ∀ c r, F c = some r → r.sourceColumn = c.name) :
    ∀ r ∈ cols.filterMap F, r.sourceColumn ∈ cols.map (·.name) := by
  intro r hr
  obtain ⟨c, hc, hfc⟩ := List.mem_filterMap.mp hr
  rw [hF c r hfc]
  exact List.mem_map.mpr ⟨c, hc, rfl⟩

/-- Every emission of the table loop carries the name of one of the tables. -/
theorem flatMap_sourceTable_mem {G : TableInfo → ColumnInfo → Option DetectedRelationship}
    {tables : List TableInfo}
    (hG : ∀ t c r, G t c = some r → r.sourceTable = t.name) :
    ∀ r ∈ tables.flatMap fun t => t.columns.filterMap (G t),
      r.sourceTable ∈ tables.map (·.name) := by
  intro r hr
  obtain ⟨t, ht, hrt⟩ := List.mem_flatMap.mp hr
  obtain ⟨c, _, hfc⟩ := List.mem_filterMap.mp hrt
  rw [hG t c r hfc]
  exact List.mem_map.mpr ⟨t, ht, rfl⟩

/-- Within one table, a column loop emits at most one relationship per
`(table, column)` pair when column names are unique. -/
theorem cols_pair_count {F : ColumnInfo → Option DetectedRelationship}
    {cols : List ColumnInfo}
    (hF : ∀ c r, F c = some r → r.sourceColumn = c.name)
    (hN : (cols.map (·.name)).Nodup) (tbl col : String) :
    ((cols.filterMap F).filter
      (fun r => r.sourceTable == tbl && r.sourceColumn == col)).length ≤ 1 := by
  induction cols with
  | nil => simp
  | cons c cs ih =>
    rw [List.map_cons, List.nodup_cons] at hN
    simp only [List.filterMap_cons]
    cases hfc : F c with
    | none => exact ih hN.2
    | some r =>
      rw [List.filter_cons]
      by_cases hpred : (r.sourceTable == tbl && r.sourceColumn == col) = true
      · rw [if_pos hpred]
        have hcol : c.name = col := by
          have := hF c r hfc
          simp only [Bool.and_eq_true, beq_iff_eq] at hpred
          rw [← this, hpred.2]
        have hempty : (cs.filterMap F).filter
            (fun r => r.sourceTable == tbl && r.sourceColumn == col) = [] := by
          apply List.filter_eq_nil_iff.mpr
          intro r' hr' hp'
          simp only [Bool.and_eq_true, beq_iff_eq] at hp'
          have : r'.sourceColumn ∈ cs.map (·.name) :=
            filterMap_sourceColumn_mem hF r' hr'
          rw [hp'.2, ← hcol] at this
          exact hN.1 this
        rw [hempty]
        simp
      · rw [if_neg hpred]
        exact ih hN.2

/-- A whole detection tier emits at most one relationship per
`(table, column)` pair when table names and per-table column names are
unique. -/
theorem tier_pair_count {G : TableInfo → ColumnInfo → Option DetectedRelationship}
    {tables : List TableInfo}
    (hG : ∀ t c r, G t c = some r → r.sourceTable = t.name ∧ r.sourceColumn = c.name)
    (hT : (tables.map (·.name)).Nodup)
    (hC : ∀ t ∈ tables, (t.columns.map (·.name)).Nodup)
    (tbl col : String) :
    ((tables.flatMap fun t => t.columns.filterMap (G t)).filter
      (fun r => r.sourceTable == tbl && r.sourceColumn == col)).length ≤ 1 := by
  induction tables with
  | nil => simp
  | cons t ts ih =>
    rw [List.map_cons, List.nodup_cons] at hT
    rw [List.flatMap_cons, List.filter_append, List.length_append]
    by_cases hname : t.name = tbl
    · have htail : ((ts.flatMap fun t => t.columns.filterMap (G t)).filter
          (fun r => r.sourceTable == tbl && r.sourceColumn == col)) = [] := by
        apply List.filter_eq_nil_iff.mpr
        intro r' hr' hp'
        simp only [Bool.and_eq_true, beq_iff_eq] at hp'
        have : r'.sourceTable ∈ ts.map (·.name) :=
          flatMap_sourceTable_mem (fun t c r h => (hG t c r h).1) r' hr'
        rw [hp'.1, ← hname] at this
        exact hT.1 this
      have hhead : ((t.columns.filterMap (G t)).filter
          (fun r => r.sourceTable == tbl && r.sourceColumn == col)).length ≤ 1 :=
        cols_pair_count (fun c r h => (hG t c r h).2) (hC t (by simp)) tbl col
      rw [htail]
      simpa using hhead
    · have hhead : ((t.columns.filterMap (G t)).filter
          (fun r => r.sourceTable == tbl && r.sourceColumn == col)) = [] := by
        apply List.filter_eq_nil_iff.mpr
        intro r' hr' hp'
        simp only [Bool.and_eq_true, beq_iff_eq] at hp'
        obtain ⟨c, _, hfc⟩ := List.mem_filterMap.mp hr'
        exact hname ((hG t c r' hfc).1 ▸ hp'.1)
      rw [hhead]
      simpa using ih hT.2 (fun t' ht' => hC t' (List.mem_cons_of_mem _ ht'))

/-- The naming tier never re-claims a pair of its input relationships. -/
theorem naming_not_reclaimed (md : DatabaseMetadata) (ex : List DetectedRelationship) :
    ∀ r ∈ detectNamingRelationships md ex,
      (r.sourceTable, r.sourceColumn) ∉ claimedPairs ex := by
  intro r hr
  obtain ⟨t, _, hrt⟩ := List.mem_flatMap.mp hr
  obtain ⟨c, _, hfc⟩ := List.mem_filterMap.mp hrt
  obtain ⟨h1, h2, h3, -⟩ := namingCandidate_spec hfc
  rw [h1, h2]
  exact h3

/-- The similarity tier never re-claims a pair of its input relationships. -/
theorem similarity_not_reclaimed (cfg : AnalysisConfig) (md : DatabaseMetadata)
    (ex : List DetectedRelationship) :
    ∀ r ∈ detectSimilarityRelationships cfg md ex,
      (r.sourceTable, r.sourceColumn) ∉ claimedPairs ex := by
  intro r hr
  obtain ⟨t, _, hrt⟩ := List.mem_flatMap.mp hr
  obtain ⟨c, _, hfc⟩ := List.mem_filterMap.mp hrt
  obtain ⟨h1, h2, h3, -⟩ := similarityCandidate_spec hfc
  rw [h1, h2]
  exact h3

/-- C3, amended: per `(source_table, source_column)` pair the naming and
similarity tiers each emit at most one relationship (under the schema
well-formedness the spec's data model already requires: unique table names,
unique column names within a table); neither lower tier ever re-claims a
pair claimed by the tiers before it; and for a pair claimed by the
explicit-FK tier the full detector output contains exactly the FK tier's
emissions for it (all HIGH, method "foreign_key_constraint") — the FK tier
itself, however, emits one relationship per declared constraint, so a column
in two FK constraints yields two. -/
theorem c3_amended (cfg : AnalysisConfig) (md : DatabaseMetadata)
    (hT : (md.tables.map (·.name)).Nodup)
    (hC : ∀ t ∈ md.tables, (t.columns.map (·.name)).Nodup)
    (tbl col : String) :
    ((detectNamingRelationships md (extractFkRelationships md)).filter
        (fun r => r.sourceTable == tbl && r.sourceColumn == col)).length ≤ 1 ∧
    ((detectSimilarityRelationships cfg md
          (extractFkRelationships md ++
            detectNamingRelationships md (extractFkRelationships md))).filter
        (fun r => r.sourceTable == tbl && r.sourceColumn == col)).length ≤ 1 ∧
    (∀ r ∈ detectNamingRelationships md (extractFkRelationships md),
      (r.sourceTable, r.sourceColumn) ∉ claimedPairs (extractFkRelationships md)) ∧
    (∀ r ∈ detectSimilarityRelationships cfg md
          (extractFkRelationships md ++
            detectNamingRelationships md (extractFkRelationships md)),
      (r.sourceTable, r.sourceColumn) ∉
        claimedPairs
          (extractFkRelationships md ++
            detectNamingRelationships md (extractFkRelationships md))) ∧
    ((tbl, col) ∈ claimedPairs (extractFkRelationships md) →
      (analyze cfg md).filter (fun r => r.sourceTable == tbl && r.sourceColumn == col) =
        (extractFkRelationships md).filter
          (fun r => r.sourceTable == tbl && r.sourceColumn == col)) := by
  refine ⟨?_, ?_, naming_not_reclaimed md _, similarity_not_reclaimed cfg md _, fun hmem => ?_⟩
  · exact tier_pair_count (fun t c r h =>
      ⟨(namingCandidate_spec h).1, (namingCandidate_spec h).2.1⟩) hT hC tbl col
  · exact tier_pair_count (fun t c r h =>
      ⟨(similarityCandidate_spec h).1, (similarityCandidate_spec h).2.1⟩) hT hC tbl col
  · have hnam : (detectNamingRelationships md (extractFkRelationships md)).filter
        (fun r => r.sourceTable == tbl && r.sourceColumn == col) = [] := by
      apply List.filter_eq_nil_iff.mpr
      intro r hr hp
      simp only [Bool.and_eq_true, beq_iff_eq] at hp
      have := naming_not_reclaimed md (extractFkRelationships md) r hr
      rw [hp.1, hp.2] at this
      exact this hmem
    have hsim : (detectSimilarityRelationships cfg md
          (extractFkRelationships md ++
            detectNamingRelationships md (extractFkRelationships md))).filter
        (fun r => r.sourceTable == tbl && r.sourceColumn == col) = [] := by
      apply List.filter_eq_nil_iff.mpr
      intro r hr hp
      simp only [Bool.and_eq_true, beq_iff_eq] at hp
      have hnot := similarity_not_reclaimed cfg md _ r hr
      rw [hp.1, hp.2] at hnot
      apply hnot
      unfold claimedPairs at hmem ⊢
      rw [List.map_append]
      exact List.mem_append_left _ hmem
    unfold analyze
    rw [List.filter_append, List.filter_append, hnam, hsim, List.append_nil,
      List.append_nil]

/-- C3, witness: in the `users`/`orders` schema where `orders.user_id` has
both a declared FK and a naming-convention match, the detector's output for
that pair is exactly the single HIGH `foreign_key_constraint`
relationship. -/
theorem c3_witness :
    ((mdFkNaming.tables.map (·.name)).Nodup ∧
      ∀ t ∈ mdFkNaming.tables, (t.columns.map (·.name)).Nodup) ∧
    (("orders", "user_id") ∈ claimedPairs (extractFkRelationships mdFkNaming) →
      (analyze {} mdFkNaming).filter
          (fun r => r.sourceTable == "orders" && r.sourceColumn == "user_id") =
        (extractFkRelationships mdFkNaming).filter
          (fun r => r.sourceTable == "orders" && r.sourceColumn == "user_id")) :=
  ⟨⟨by decide, by decide⟩,
    (c3_amended {} mdFkNaming (by decide) (by decide) "orders" "user_id").2.2.2.2⟩

/-! ## C8 — similarity threshold boundary -/

/-- The best-match fold ends with a match iff it starts with one or some
candidate passes both the threshold test and the strict running-best
test. -/
theorem simFold_isSome (cfg : AnalysisConfig) (column : ColumnInfo) :
    ∀ (cands : List (String × ColumnInfo)) (acc : Option (String × String) × ℚ),
    ((cands.foldl (simFoldStep cfg column) acc).1).isSome = true ↔
      acc.1.isSome = true ∨ ∃ cand ∈ cands,
        cfg.similarityThreshold ≤ calculateColumnSimilarity column cand.2 ∧
          acc.2 < calculateColumnSimilarity column cand.2 := by
  intro cands
  induction cands with
  | nil =>
    intro acc
    simp
  | cons cand cands ih =>
    intro acc
    rw [List.foldl_cons, ih]
    simp only [simFoldStep]
    by_cases hc : cfg.similarityThreshold ≤ calculateColumnSimilarity column cand.2 ∧
        acc.2 < calculateColumnSimilarity column cand.2
    · rw [if_pos hc]
      simp only [Option.isSome_some, true_or, true_iff]
      exact Or.inr ⟨cand, List.mem_cons_self cand cands, hc⟩
    · rw [if_neg hc]
      constructor
      · rintro (h | ⟨c', hc', hP⟩)
        · exact Or.inl h
        · exact Or.inr ⟨c', List.mem_cons_of_mem cand hc', hP⟩
      · rintro (h | ⟨c', hc', hP⟩)
        · exact Or.inl h
        · rcases List.mem_cons.mp hc' with rfl | hmem
          · exact absurd hP hc
          · exact Or.inr ⟨c', hmem, hP⟩

/-- With a positive threshold, a best match exists iff some candidate scores
at or above the threshold (the `>=` comparison makes the boundary
inclusive). -/
theorem bestSimMatch_isSome_iff (cfg : AnalysisConfig) (md : DatabaseMetadata)
    (table : TableInfo) (column : ColumnInfo) (hthr : 0 < cfg.similarityThreshold) :
    (bestSimMatch cfg md table column).isSome = true ↔
      ∃ cand ∈ simCandidates md table,
        cfg.similarityThreshold ≤ calculateColumnSimilarity column cand.2 := by
  unfold bestSimMatch
  rw [simFold_isSome]
  simp only [Option.isSome_none, Bool.false_eq_true, false_or]
  constructor
  · rintro ⟨cand, hm, h1, -⟩
    exact ⟨cand, hm, h1⟩
  · rintro ⟨cand, hm, h1⟩
    exact ⟨cand, hm, h1, lt_of_lt_of_le hthr h1⟩

/-- C8: with a positive configured threshold, a non-PK unclaimed column is
matched (a LOW `similarity_analysis` relationship is emitted for it) exactly
when some primary-key column of another table scores at or above the
threshold — in particular a pair scoring exactly at the threshold is
emitted, and a column all of whose candidate scores are strictly below is
not. Table names and per-table column names are assumed unique, as the
spec's data model requires. -/
theorem c8_similarity_threshold (cfg : AnalysisConfig) (md : DatabaseMetadata)
    (ex : List DetectedRelationship) (hthr : 0 < cfg.similarityThreshold)
    (hT : (md.tables.map (·.name)).Nodup)
    (hC : ∀ t ∈ md.tables, (t.columns.map (·.name)).Nodup)
    (table : TableInfo) (ht : table ∈ md.tables)
    (column : ColumnInfo) (hc : column ∈ table.columns)
    (hclaim : (table.name, column.name) ∉ claimedPairs ex)
    (hpk : column.isPrimaryKey = false) :
    (∃ r ∈ detectSimilarityRelationships cfg md ex,
        r.sourceTable = table.name ∧ r.sourceColumn = column.name ∧
          r.confidence = .low ∧ r.detectionMethod = "similarity_analysis") ↔
      ∃ cand ∈ simCandidates md table,
        cfg.similarityThreshold ≤ calculateColumnSimilarity column cand.2 := by
  constructor
  · rintro ⟨r, hr, hrt, hrc, -, -⟩
    obtain ⟨t', ht', hrt'⟩ := List.mem_flatMap.mp hr
    obtain ⟨c', hc', hfc⟩ := List.mem_filterMap.mp hrt'
    obtain ⟨h1, h2, -, -⟩ := similarityCandidate_spec hfc
    have htt : t' = table :=
      List.inj_on_of_nodup_map hT ht' ht (by rw [← h1, hrt])
    subst htt
    have hcc : c' = column :=
      List.inj_on_of_nodup_map (hC t' ht') hc' hc (by rw [← h2, hrc])
    subst hcc
    unfold similarityCandidate at hfc
    rw [if_neg hclaim, hpk] at hfc
    simp only [Bool.false_eq_true, if_false] at hfc
    have hsome : (bestSimMatch cfg md t' c').isSome = true := by
      cases hbs : bestSimMatch cfg md t' c' with
      | none => rw [hbs] at hfc; cases hfc
      | some best => rfl
    exact (bestSimMatch_isSome_iff cfg md t' c' hthr).mp hsome
  · intro hex
    have hsome := (bestSimMatch_isSome_iff cfg md table column hthr).mpr hex
    cases hbs : bestSimMatch cfg md table column with
    | none => rw [hbs] at hsome; cases hsome
    | some best =>
      refine ⟨{ sourceTable := table.name, sourceColumn := column.name,
                targetTable := best.1, targetColumn := best.2,
                confidence := .low, detectionMethod := "similarity_analysis" },
        ?_, rfl, rfl, rfl, rfl⟩
      apply List.mem_flatMap.mpr
      refine ⟨table, ht, List.mem_filterMap.mpr ⟨column, hc, ?_⟩⟩
      unfold similarityCandidate
      rw [if_neg hclaim, hpk]
      simp only [Bool.false_eq_true, if_false]
      rw [hbs]
      rfl

set_option maxRecDepth 8000 in
unseal Rat.mul Rat.add in
/-- C8, witness: in `mdSimBoundary` the only candidate pair
(`t1.abcxy` against PK `t2.abczw`) scores exactly `0.8` against the default
threshold `0.8`, and the LOW relationship is emitted. -/
theorem c8_witness :
    ((0 : ℚ) < ({} : AnalysisConfig).similarityThreshold ∧
      calculateColumnSimilarity ⟨"abcxy", "integer", false⟩ ⟨"abczw", "bigint", true⟩ =
        ({} : AnalysisConfig).similarityThreshold) ∧
    ∃ r ∈ detectSimilarityRelationships {} mdSimBoundary [],
      r.sourceTable = "t1" ∧ r.sourceColumn = "abcxy" ∧
        r.confidence = .low ∧ r.detectionMethod = "similarity_analysis" :=
  ⟨⟨by decide, by decide⟩,
    (c8_similarity_threshold {} mdSimBoundary [] (by decide) (by decide) (by decide)
        ⟨"t1", [⟨"abcxy", "integer", false⟩], []⟩ (by decide)
        ⟨"abcxy", "integer", false⟩ (by decide) (by decide) rfl).mpr
      ⟨("t2", ⟨"abczw", "bigint", true⟩), by decide, by decide⟩⟩

/-! ## Path-enumeration machinery: completeness of `candidatePaths` -/

/-- Inserting `a` at any split point is covered by `insertsOf`. -/
theorem mem_insertsOf {a : α} : ∀ {xs ys : List α}, (xs ++ a :: ys) ∈ insertsOf a (xs ++ ys) := by
  intro xs
  induction xs with
  | nil =>
    intro ys
    simp [insertsOf]
    cases ys <;> simp [insertsOf]
  | cons b xs ih =>
    intro ys
    simp only [List.cons_append, insertsOf]
    exact List.mem_cons.mpr (Or.inr (List.mem_map.mpr ⟨xs ++ a :: ys, ih, rfl⟩))

/-- Every permutation of `l` appears in `permsOf l`. -/
theorem mem_permsOf_of_perm : ∀ {l p : List α}, List.Perm p l → p ∈ permsOf l := by
  intro l
  induction l with
  | nil =>
    intro p h
    rw [h.eq_nil]
    simp [permsOf]
  | cons a as ih =>
    intro p h
    have ha : a ∈ p := h.mem_iff.mpr (List.mem_cons_self a as)
    obtain ⟨xs, ys, rfl⟩ := List.append_of_mem ha
    have hperm : List.Perm (xs ++ ys) as :=
      (List.Perm.trans List.perm_middle.symm h).cons_inv
    unfold permsOf
    exact List.mem_flatMap.mpr ⟨xs ++ ys, ih hperm, mem_insertsOf⟩

/-- Unfolding of the simple-path test. -/
theorem isSimplePath_iff (g : RelGraph) (u v : String) (p : List String) :
    isSimplePath g u v p = true ↔
      p.head? = some u ∧ p.getLast? = some v ∧ p.Nodup ∧ isChain g p = true ∧
        ∀ x ∈ p, x ∈ g.nodes := by
  unfold isSimplePath
  simp [List.all_eq_true, and_assoc]

/-- Every simple path of `g` is enumerated by `candidatePaths`. -/
theorem mem_candidatePaths_of_valid {g : RelGraph} {u v : String} {p : List String}
    (h : isSimplePath g u v p = true) : p ∈ candidatePaths g := by
  rw [isSimplePath_iff] at h
  obtain ⟨-, -, hnd, -, hmem⟩ := h
  refine List.mem_flatMap.mpr ⟨g.nodes.dedup.filter (fun x => decide (x ∈ p)), ?_, ?_⟩
  · exact List.mem_sublists.mpr (List.filter_sublist _)
  · apply mem_permsOf_of_perm
    apply (List.perm_ext_iff_of_nodup hnd ((List.nodup_dedup _).filter _)).mpr
    intro x
    simp only [List.mem_filter, List.mem_dedup, decide_eq_true_eq]
    exact ⟨fun hx => ⟨hmem x hx, hx⟩, fun hx => hx.2⟩

/-! ## The minimum-cost selector -/

/-- `minCostList` is `none` exactly on the empty list. -/
theorem minCostList_eq_none {l : List Nat} : minCostList l = none ↔ l = [] := by
  cases l with
  | nil => simp [minCostList]
  | cons c cs =>
    simp only [minCostList]
    cases minCostList cs <;> simp

/-- `minCostList` returns a member that lower-bounds the list. -/
theorem minCostList_spec : ∀ {l : List Nat} {m : Nat}, minCostList l = some m →
    m ∈ l ∧ ∀ c ∈ l, m ≤ c := by
  intro l
  induction l with
  | nil => intro m h; cases h
  | cons c cs ih =>
    intro m h
    unfold minCostList at h
    cases hcs : minCostList cs with
    | none =>
      rw [hcs] at h
      injection h with h
      subst h
      rw [minCostList_eq_none.mp hcs]
      simp
    | some m' =>
      rw [hcs] at h
      injection h with h
      subst h
      obtain ⟨hm', hle⟩ := ih hcs
      constructor
      · rcases le_total c m' with hcm | hcm
        · rw [min_eq_left hcm]
          exact List.mem_cons_self c cs
        · rw [min_eq_right hcm]
          exact List.mem_cons_of_mem c hm'
      · intro x hx
        rcases List.mem_cons.mp hx with rfl | hx
        · exact min_le_left _ _
        · exact le_trans (min_le_right _ _) (hle x hx)

/-- Lists with the same members have the same minimum. -/
theorem minCostList_congr {l1 l2 : List Nat} (h : ∀ c, c ∈ l1 ↔ c ∈ l2) :
    minCostList l1 = minCostList l2 := by
  cases h1 : minCostList l1 with
  | none =>
    rw [minCostList_eq_none.mp h1] at h
    have hl2 : l2 = [] := by
      apply List.eq_nil_iff_forall_not_mem.mpr
      intro a ha
      exact List.not_mem_nil a ((h a).mpr ha)
    rw [hl2]
    rfl
  | some m =>
    obtain ⟨hm, hle⟩ := minCostList_spec h1
    cases h2 : minCostList l2 with
    | none =>
      rw [minCostList_eq_none.mp h2] at h
      exact absurd ((h m).mp hm) (List.not_mem_nil m)
    | some m2 =>
      obtain ⟨hm2, hle2⟩ := minCostList_spec h2
      exact congrArg some (le_antisymm (hle m2 ((h m2).mpr hm2)) (hle2 m ((h m).mp hm)))

/-! ## Chains and their reversal -/

/-- Appending a node extends the pair list by one pair from the old last
node. -/
theorem chainPairs_concat : ∀ (xs : List String) (a z : String), xs.getLast? = some z →
    chainPairs (xs ++ [a]) = chainPairs xs ++ [(z, a)]
  | [], a, z => by intro h; cases h
  | [x], a, z => by
    intro h
    injection h with h
    subst h
    rfl
  | x :: y :: ys, a, z => by
    intro h
    rw [List.getLast?_cons_cons] at h
    have ih := chainPairs_concat (y :: ys) a z h
    simp only [List.cons_append] at ih ⊢
    rw [show chainPairs (x :: y :: (ys ++ [a])) =
      (x, y) :: chainPairs (y :: (ys ++ [a])) from rfl, ih]
    rfl

/-- The pairs of the reversed walk are the swapped pairs in reverse order. -/
theorem chainPairs_reverse : ∀ (p : List String),
    chainPairs p.reverse = ((chainPairs p).reverse).map Prod.swap
  | [] => rfl
  | [x] => rfl
  | u :: v :: rest => by
    have ih := chainPairs_reverse (v :: rest)
    rw [show (u :: v :: rest).reverse = (v :: rest).reverse ++ [u] from List.reverse_cons u _]
    rw [chainPairs_concat _ u v (by rw [List.getLast?_reverse]; rfl), ih]
    rw [show chainPairs (u :: v :: rest) = (u, v) :: chainPairs (v :: rest) from rfl]
    rw [List.reverse_cons, List.map_append]
    rfl

/-- On a duplicate-free walk, consecutive nodes are distinct. -/
theorem chainPairs_ne : ∀ (p : List String), p.Nodup → ∀ e ∈ chainPairs p, e.1 ≠ e.2
  | [] => by intro _ e he; cases he
  | [x] => by intro _ e he; cases he
  | u :: v :: rest => by
    intro h e he
    rw [show chainPairs (u :: v :: rest) = (u, v) :: chainPairs (v :: rest) from rfl] at he
    rcases List.mem_cons.mp he with rfl | hm
    · intro huv
      have huv' : u = v := huv
      rw [List.nodup_cons] at h
      exact h.1 (huv' ▸ List.mem_cons_self v rest)
    · exact chainPairs_ne (v :: rest) (List.nodup_cons.mp h).2 e hm

/-- `isChain` in terms of the pair list. -/
theorem isChain_eq (g : RelGraph) : ∀ p : List String,
    isChain g p = (!p.isEmpty && (chainPairs p).all fun e => (edgeData g e.1 e.2).isSome)
  | [] => rfl
  | [x] => rfl
  | u :: v :: rest => by
    rw [show isChain g (u :: v :: rest) =
      ((edgeData g u v).isSome && isChain g (v :: rest)) from rfl]
    rw [isChain_eq g (v :: rest)]
    simp [chainPairs, Bool.and_assoc]

/-- `chainCost` in terms of the pair list. -/
theorem chainCost_eq (g : RelGraph) : ∀ p : List String,
    chainCost g p = ((chainPairs p).map fun e => edgeWeight g e.1 e.2).sum
  | [] => rfl
  | [x] => rfl
  | u :: v :: rest => by
    rw [show chainCost g (u :: v :: rest) =
      edgeWeight g u v + chainCost g (v :: rest) from rfl]
    rw [chainCost_eq g (v :: rest)]
    rfl

/-- Under the mirror invariant the two directions of an edge carry the same
weight. -/
theorem mirror_edgeWeight {g : RelGraph} (hm : mirrorInv g) {x y : String} (hxy : x ≠ y) :
    edgeWeight g y x = edgeWeight g x y := by
  unfold edgeWeight
  rw [hm x y hxy]
  cases edgeData g x y <;> rfl

/-- Reversing a duplicate-free chain of a mirrored graph gives a chain. -/
theorem isChain_reverse {g : RelGraph} {p : List String} (hm : mirrorInv g)
    (hnd : p.Nodup) (h : isChain g p = true) : isChain g p.reverse = true := by
  rw [isChain_eq] at h ⊢
  rw [chainPairs_reverse]
  simp only [Bool.and_eq_true, List.all_eq_true] at h ⊢
  obtain ⟨hne, hall⟩ := h
  refine ⟨?_, ?_⟩
  · simp only [Bool.not_eq_true', List.isEmpty_eq_false] at hne ⊢
    simpa [List.reverse_eq_nil_iff] using hne
  · intro e he
    obtain ⟨e', he', rfl⟩ := List.mem_map.mp he
    have he'' : e' ∈ chainPairs p := List.mem_reverse.mp he'
    have hx := hall e' he''
    have hne' := chainPairs_ne p hnd e' he''
    show (edgeData g e'.2 e'.1).isSome = true
    rw [hm e'.1 e'.2 hne']
    cases hd : edgeData g e'.1 e'.2 with
    | none => rw [hd] at hx; cases hx
    | some d => rfl

/-- Reversing a duplicate-free walk of a mirrored graph preserves its
cost. -/
theorem chainCost_reverse {g : RelGraph} {p : List String} (hm : mirrorInv g)
    (hnd : p.Nodup) : chainCost g p.reverse = chainCost g p := by
  rw [chainCost_eq, chainCost_eq, chainPairs_reverse, List.map_map]
  have : (List.map ((fun e => edgeWeight g e.1 e.2) ∘ Prod.swap) (chainPairs p).reverse) =
      (chainPairs p).reverse.map fun e => edgeWeight g e.1 e.2 := by
    apply List.map_congr_left
    intro e he
    exact mirror_edgeWeight hm (chainPairs_ne p hnd e (List.mem_reverse.mp he))
  rw [this, List.map_reverse, List.sum_reverse]

/-- Reversing a simple path of a mirrored graph gives a simple path in the
opposite direction. -/
theorem isSimplePath_reverse {g : RelGraph} {u v : String} {p : List String}
    (hm : mirrorInv g) (h : isSimplePath g u v p = true) :
    isSimplePath g v u p.reverse = true := by
  rw [isSimplePath_iff] at h ⊢
  obtain ⟨h1, h2, h3, h4, h5⟩ := h
  exact ⟨by rw [List.head?_reverse]; exact h2, by rw [List.getLast?_reverse]; exact h1,
    List.nodup_reverse.mpr h3, isChain_reverse hm h3 h4,
    fun x hx => h5 x (List.mem_reverse.mp hx)⟩

/-- Membership facts of `pathsBetween`. -/
theorem pathsBetween_mem {g : RelGraph} {u v : String} {p : List String} :
    p ∈ pathsBetween g u v ↔ isSimplePath g u v p = true := by
  unfold pathsBetween
  constructor
  · intro h
    exact (List.mem_filter.mp h).2
  · intro h
    exact List.mem_filter.mpr ⟨mem_candidatePaths_of_valid h, h⟩

/-- In a mirrored graph the minimum join cost is direction-independent. -/
theorem shortestCost_symm {g : RelGraph} (hm : mirrorInv g) (u v : String) :
    shortestCost g u v = shortestCost g v u := by
  unfold shortestCost
  apply minCostList_congr
  intro c
  simp only [List.mem_map]
  constructor
  · rintro ⟨p, hp, rfl⟩
    refine ⟨p.reverse, ?_, chainCost_reverse hm ?_⟩
    · exact pathsBetween_mem.mpr (isSimplePath_reverse hm (pathsBetween_mem.mp hp))
    · exact ((isSimplePath_iff g u v p).mp (pathsBetween_mem.mp hp)).2.2.1
  · rintro ⟨p, hp, rfl⟩
    refine ⟨p.reverse, ?_, chainCost_reverse hm ?_⟩
    · exact pathsBetween_mem.mpr (isSimplePath_reverse hm (pathsBetween_mem.mp hp))
    · exact ((isSimplePath_iff g v u p).mp (pathsBetween_mem.mp hp)).2.2.1

/-! ## Invariants of the built graph -/

/-- `add_node` does not touch edges. -/
theorem addNode_edges (g : RelGraph) (n : String) : (addNode g n).edges = g.edges := by
  unfold addNode
  split <;> rfl

/-- `add_node` preserves and adds node membership. -/
theorem addNode_mem {g : RelGraph} {n m : String} (h : m ∈ g.nodes) :
    m ∈ (addNode g n).nodes := by
  unfold addNode
  split
  · exact h
  · exact List.mem_append_left _ h

/-- The added node is a node. -/
theorem addNode_mem_self (g : RelGraph) (n : String) : n ∈ (addNode g n).nodes := by
  unfold addNode
  split
  · assumption
  · exact List.mem_append_right _ (List.mem_singleton.mpr rfl)

/-- One step of the edge map after `setEdge`. -/
theorem find?_setEdge (a b u v : String) (d : EdgeData) :
    ∀ es : List (String × String × EdgeData),
    ((setEdge a b d es).find? fun e => decide (e.1 = u ∧ e.2.1 = v)) =
      if u = a ∧ v = b then some (a, b, d)
      else es.find? fun e => decide (e.1 = u ∧ e.2.1 = v)
  | [] => by
    by_cases h : u = a ∧ v = b
    · rw [if_pos h]
      simp [setEdge, List.find?, h.1, h.2]
    · rw [if_neg h]
      have h' : ¬(a = u ∧ b = v) := fun hh => h ⟨hh.1.symm, hh.2.symm⟩
      simp [setEdge, List.find?, h']
  | e :: es => by
    simp only [setEdge]
    by_cases he : e.1 = a ∧ e.2.1 = b
    · rw [if_pos he]
      by_cases h : u = a ∧ v = b
      · rw [if_pos h]
        simp [List.find?, h.1, h.2]
      · rw [if_neg h]
        have h1 : ¬(a = u ∧ b = v) := fun hh => h ⟨hh.1.symm, hh.2.symm⟩
        have h2 : ¬(e.1 = u ∧ e.2.1 = v) := fun hh =>
          h ⟨hh.1.symm.trans he.1, hh.2.symm.trans he.2⟩
        simp [List.find?, h1, h2]
    · rw [if_neg he]
      by_cases hp : e.1 = u ∧ e.2.1 = v
      · by_cases h : u = a ∧ v = b
        · exact absurd ⟨hp.1.trans h.1, hp.2.trans h.2⟩ he
        · rw [if_neg h]
          simp [List.find?, hp]
      · have ih := find?_setEdge a b u v d es
        simp only [Bool.decide_and] at ih
        simp [List.find?, hp, ih]

/-- The edge map after `add_edge`: the `(a, b)` slot is overwritten, all
other slots are untouched. -/
theorem edgeData_addEdge (g : RelGraph) (a b u v : String) (d : EdgeData) :
    edgeData (addEdge g a b d) u v =
      if u = a ∧ v = b then some d else edgeData g u v := by
  unfold addEdge edgeData
  simp only [addNode_edges]
  rw [find?_setEdge]
  by_cases h : u = a ∧ v = b
  · rw [if_pos h, if_pos h]
    rfl
  · rw [if_neg h, if_neg h]

/-- `add_edge` keeps every node. -/
theorem addEdge_mem {g : RelGraph} {a b n : String} {d : EdgeData} (h : n ∈ g.nodes) :
    n ∈ (addEdge g a b d).nodes :=
  addNode_mem (addNode_mem h)

/-- `add_edge` inserts both endpoints as nodes. -/
theorem addEdge_mem_endpoints (g : RelGraph) (a b : String) (d : EdgeData) :
    a ∈ (addEdge g a b d).nodes ∧ b ∈ (addEdge g a b d).nodes :=
  ⟨addNode_mem (addNode_mem_self g a), addNode_mem_self (addNode g a) b⟩

/-- Adding a relationship's two edges preserves the mirror invariant (also
for self-relationships, where both updates hit the same slot). -/
theorem mirrorInv_addRelationshipEdges {g : RelGraph} (hm : mirrorInv g)
    (rel : DetectedRelationship) : mirrorInv (addRelationshipEdges g rel) := by
  intro u v huv
  unfold addRelationshipEdges
  simp only [edgeData_addEdge]
  by_cases h1 : v = rel.targetTable ∧ u = rel.sourceTable
  · rw [if_pos h1]
    by_cases h2 : u = rel.targetTable ∧ v = rel.sourceTable
    · exact absurd (h2.1.trans (h1.1.symm ▸ rfl : rel.targetTable = v)) huv
    · rw [if_neg h2, if_pos ⟨h1.2, h1.1⟩]
      rfl
  · rw [if_neg h1]
    by_cases h2 : v = rel.sourceTable ∧ u = rel.targetTable
    · rw [if_pos h2]
      by_cases h3 : u = rel.targetTable ∧ v = rel.sourceTable
      · rw [if_pos h3]
        rfl
      · exact absurd ⟨h2.2, h2.1⟩ h3
    · rw [if_neg h2]
      by_cases h3 : u = rel.targetTable ∧ v = rel.sourceTable
      · exact absurd ⟨h3.2, h3.1⟩ h2
      · rw [if_neg h3]
        by_cases h4 : u = rel.sourceTable ∧ v = rel.targetTable
        · exact absurd ⟨h4.2, h4.1⟩ h1
        · rw [if_neg h4]
          exact hm u v huv

/-- The initial nodes-only graph has no edges. -/
theorem nodesOnly_edges (tables : List TableInfo) :
    ∀ g0 : RelGraph, g0.edges = [] →
    (tables.foldl (fun g t => addNode g t.name) g0).edges = [] := by
  induction tables with
  | nil => intro g0 h; exact h
  | cons t ts ih =>
    intro g0 h
    exact ih (addNode g0 t.name) (by rw [addNode_edges]; exact h)

/-- An edgeless graph is trivially mirrored. -/
theorem mirrorInv_of_no_edges {g : RelGraph} (h : g.edges = []) : mirrorInv g := by
  intro u v _
  unfold edgeData
  rw [h]
  rfl

/-- The built relationship graph satisfies the mirror invariant. -/
theorem mirrorInv_buildRelationshipGraph (md : DatabaseMetadata) :
    mirrorInv (buildRelationshipGraph md) := by
  unfold buildRelationshipGraph
  have base : mirrorInv (md.tables.foldl (fun g t => addNode g t.name) ⟨[], []⟩) :=
    mirrorInv_of_no_edges (nodesOnly_edges md.tables ⟨[], []⟩ rfl)
  generalize md.tables.foldl (fun g t => addNode g t.name) ⟨[], []⟩ = g0 at base
  induction md.detectedRelationships generalizing g0 with
  | nil => exact base
  | cons rel rels ih =>
    exact ih (addRelationshipEdges g0 rel) (mirrorInv_addRelationshipEdges base rel)

/-- One relationship step keeps every present edge present. -/
theorem addRelationshipEdges_preserves {g : RelGraph} {u v : String}
    (h : (edgeData g u v).isSome = true) (rel : DetectedRelationship) :
    (edgeData (addRelationshipEdges g rel) u v).isSome = true := by
  unfold addRelationshipEdges
  simp only [edgeData_addEdge]
  by_cases h1 : u = rel.targetTable ∧ v = rel.sourceTable
  · rw [if_pos h1]; rfl
  · rw [if_neg h1]
    by_cases h2 : u = rel.sourceTable ∧ v = rel.targetTable
    · rw [if_pos h2]; rfl
    · rw [if_neg h2]; exact h

/-- One relationship step keeps every node. -/
theorem addRelationshipEdges_mem {g : RelGraph} {n : String} (h : n ∈ g.nodes)
    (rel : DetectedRelationship) : n ∈ (addRelationshipEdges g rel).nodes :=
  addEdge_mem (addEdge_mem h)

/-- After its own step, a relationship's two edges are present and its
endpoints are nodes. -/
theorem addRelationshipEdges_self (g : RelGraph) (rel : DetectedRelationship) :
    (edgeData (addRelationshipEdges g rel) rel.sourceTable rel.targetTable).isSome = true ∧
    (edgeData (addRelationshipEdges g rel) rel.targetTable rel.sourceTable).isSome = true ∧
    rel.sourceTable ∈ (addRelationshipEdges g rel).nodes ∧
    rel.targetTable ∈ (addRelationshipEdges g rel).nodes := by
  unfold addRelationshipEdges
  refine ⟨?_, ?_, ?_, ?_⟩
  · simp only [edgeData_addEdge]
    by_cases h1 : rel.sourceTable = rel.targetTable ∧ rel.targetTable = rel.sourceTable
    · rw [if_pos h1]; rfl
    · rw [if_neg h1]
      simp
  · simp only [edgeData_addEdge]
    simp
  · exact (addEdge_mem_endpoints _ _ _ _).2
  · exact (addEdge_mem_endpoints _ _ _ _).1

/-- Fold persistence: a present edge pair with present endpoints stays
present through the relationship fold. -/
theorem foldRel_preserves :
    ∀ (rels : List DetectedRelationship) (g1 : RelGraph) (x y : String),
    (edgeData g1 x y).isSome = true → (edgeData g1 y x).isSome = true →
    x ∈ g1.nodes → y ∈ g1.nodes →
    (edgeData (rels.foldl addRelationshipEdges g1) x y).isSome = true ∧
    (edgeData (rels.foldl addRelationshipEdges g1) y x).isSome = true ∧
    x ∈ (rels.foldl addRelationshipEdges g1).nodes ∧
    y ∈ (rels.foldl addRelationshipEdges g1).nodes := by
  intro rels
  induction rels with
  | nil => exact fun g1 x y e1 e2 n1 n2 => ⟨e1, e2, n1, n2⟩
  | cons r' rs' ih =>
    intro g1 x y e1 e2 n1 n2
    rw [List.foldl_cons]
    exact ih _ x y (addRelationshipEdges_preserves e1 r')
      (addRelationshipEdges_preserves e2 r')
      (addRelationshipEdges_mem n1 r') (addRelationshipEdges_mem n2 r')

/-- In a relationship fold, every folded relationship's two edges are
present and its endpoints are nodes. -/
theorem foldRel_edges_present :
    ∀ (rels : List DetectedRelationship) (g0 : RelGraph) (rel : DetectedRelationship),
    rel ∈ rels →
    (edgeData (rels.foldl addRelationshipEdges g0) rel.sourceTable rel.targetTable).isSome =
      true ∧
    (edgeData (rels.foldl addRelationshipEdges g0) rel.targetTable rel.sourceTable).isSome =
      true ∧
    rel.sourceTable ∈ (rels.foldl addRelationshipEdges g0).nodes ∧
    rel.targetTable ∈ (rels.foldl addRelationshipEdges g0).nodes := by
  intro rels
  induction rels with
  | nil => intro g0 rel h; cases h
  | cons r rs ih =>
    intro g0 rel h
    rcases List.mem_cons.mp h with rfl | hmem
    · rw [List.foldl_cons]
      obtain ⟨e1, e2, n1, n2⟩ := addRelationshipEdges_self g0 rel
      exact foldRel_preserves rs _ _ _ e1 e2 n1 n2
    · rw [List.foldl_cons]
      exact ih _ rel hmem

/-- In the built graph, every relationship's two edges are present and its
endpoints are nodes. -/
theorem buildGraph_edges_present (md : DatabaseMetadata) (rel : DetectedRelationship)
    (h : rel ∈ md.detectedRelationships) :
    (edgeData (buildRelationshipGraph md) rel.sourceTable rel.targetTable).isSome = true ∧
    (edgeData (buildRelationshipGraph md) rel.targetTable rel.sourceTable).isSome = true ∧
    rel.sourceTable ∈ (buildRelationshipGraph md).nodes ∧
    rel.targetTable ∈ (buildRelationshipGraph md).nodes := by
  unfold buildRelationshipGraph
  exact foldRel_edges_present md.detectedRelationships _ rel h

/-! ## Behaviour of `find_join_path` -/

/-- What a returned Dijkstra path satisfies. -/
theorem dijkstraPathOf_spec {g : RelGraph} {u v : String} {p : List String}
    (h : dijkstraPathOf g u v = some p) :
    p ∈ pathsBetween g u v ∧ shortestCost g u v = some (chainCost g p) := by
  unfold dijkstraPathOf at h
  cases hc : shortestCost g u v with
  | none => rw [hc] at h; cases h
  | some m =>
    rw [hc] at h
    refine ⟨List.mem_of_find?_eq_some h, ?_⟩
    have hpred := List.find?_some h
    have hcost : chainCost g p = m := by simpa using hpred
    exact congrArg some hcost.symm

/-- A simple path between distinct endpoints visits at least two nodes. -/
theorem simplePath_length_two {g : RelGraph} {u v : String} {p : List String}
    (h : isSimplePath g u v p = true) (huv : u ≠ v) : 2 ≤ p.length := by
  rw [isSimplePath_iff] at h
  obtain ⟨h1, h2, -⟩ := h
  match p with
  | [] => cases h1
  | [x] =>
    rw [List.head?_cons] at h1
    rw [List.getLast?_singleton] at h2
    injection h1 with h1
    injection h2 with h2
    exact absurd (h1.symm.trans h2) huv
  | a :: b :: rest => simp

/-- The only simple path from a node to itself is the single-node path. -/
theorem pathsBetween_self {g : RelGraph} {u : String} {p : List String}
    (hp : p ∈ pathsBetween g u u) : p = [u] := by
  have h := pathsBetween_mem.mp hp
  rw [isSimplePath_iff] at h
  obtain ⟨h1, h2, h3, -, -⟩ := h
  cases p with
  | nil => cases h1
  | cons x xs =>
    rw [List.head?_cons] at h1
    injection h1 with h1
    subst h1
    cases xs with
    | nil => rfl
    | cons y ys =>
      exfalso
      rw [List.getLast?_cons_cons] at h2
      have hmem : x ∈ y :: ys := List.mem_of_mem_getLast? h2
      exact (List.nodup_cons.mp h3).1 hmem

/-- `shortest_path(A, A)` yields no join path. -/
theorem find_join_path_self (g : RelGraph) (u : String) : find_join_path g u u = none := by
  unfold find_join_path
  cases hd : dijkstraPathOf g u u with
  | none => rfl
  | some p =>
    cases hc : shortestCost g u u with
    | none => rfl
    | some m =>
      have hp := (dijkstraPathOf_spec hd).1
      rw [pathsBetween_self hp]
      rfl

/-- Disconnected endpoints yield no join path. -/
theorem find_join_path_empty {g : RelGraph} {u v : String}
    (h : pathsBetween g u v = []) : find_join_path g u v = none := by
  unfold find_join_path dijkstraPathOf shortestCost
  rw [h]
  rfl

/-- Shape of a successful `find_join_path`. -/
theorem find_join_path_some_shape {g : RelGraph} {u v : String} {jp : JoinPath}
    (h : find_join_path g u v = some jp) :
    jp.tables ∈ pathsBetween g u v ∧ 2 ≤ jp.tables.length ∧ jp.tables.Nodup ∧
      shortestCost g u v = some jp.totalCost := by
  unfold find_join_path at h
  cases hd : dijkstraPathOf g u v with
  | none => rw [hd] at h; cases h
  | some p =>
    cases hc : shortestCost g u v with
    | none => rw [hd, hc] at h; cases h
    | some m =>
      rw [hd, hc] at h
      dsimp only at h
      by_cases hl : p.length < 2
      · rw [if_pos hl] at h; cases h
      · rw [if_neg hl] at h
        injection h with h
        subst h
        obtain ⟨hp, hcost⟩ := dijkstraPathOf_spec hd
        refine ⟨hp, by dsimp only; omega, ?_, rfl⟩
        exact ((isSimplePath_iff g u v p).mp (pathsBetween_mem.mp hp)).2.2.1

/-- With any simple path available and distinct endpoints,
`find_join_path` succeeds and reports the minimum cost. -/
theorem find_join_path_some_of_nonempty {g : RelGraph} {u v : String}
    (hne : pathsBetween g u v ≠ []) (huv : u ≠ v) :
    ∃ jp, find_join_path g u v = some jp ∧ shortestCost g u v = some jp.totalCost := by
  have hmap : (pathsBetween g u v).map (chainCost g) ≠ [] := by
    intro hcon
    exact hne (List.map_eq_nil_iff.mp hcon)
  cases hc : shortestCost g u v with
  | none =>
    exact absurd (minCostList_eq_none.mp hc) hmap
  | some m =>
    have hmem := (minCostList_spec hc).1
    obtain ⟨p, hp, hcp⟩ := List.mem_map.mp hmem
    have hfind : ((pathsBetween g u v).find? (fun q => chainCost g q == m)).isSome = true :=
      List.find?_isSome.mpr ⟨p, hp, by simp [hcp]⟩
    cases hfq : (pathsBetween g u v).find? (fun q => chainCost g q == m) with
    | none => rw [hfq] at hfind; cases hfind
    | some q =>
      have hq := List.mem_of_find?_eq_some hfq
      have hql : ¬ q.length < 2 := by
        have := simplePath_length_two (pathsBetween_mem.mp hq) huv
        omega
      refine ⟨⟨q, joinsOfPath g q, m⟩, ?_, rfl⟩
      unfold find_join_path dijkstraPathOf
      rw [hc]
      dsimp only
      rw [hfq]
      dsimp only
      rw [if_neg hql]

/-! ## C6 — no self-path, disconnected returns None -/

/-- C6: for table names that are nodes of the graph, `find_join_path`
returns `None` exactly when the two names are equal or no chain of
relationships connects them (no simple path exists); a returned path always
spans at least 2 distinct tables.  (The embedding covers the
`NetworkXNoPath`-to-`None` behaviour; querying a name absent from the graph
raises `NodeNotFound` in networkx and is outside the claim.) -/
theorem c6_self_and_disconnected_none (md : DatabaseMetadata) (u v : String)
    (hu : u ∈ (buildRelationshipGraph md).nodes)
    (hv : v ∈ (buildRelationshipGraph md).nodes) :
    (find_join_path (buildRelationshipGraph md) u v = none ↔
      u = v ∨ pathsBetween (buildRelationshipGraph md) u v = []) ∧
    ∀ jp, find_join_path (buildRelationshipGraph md) u v = some jp →
      2 ≤ jp.tables.length ∧ jp.tables.Nodup := by
  refine ⟨⟨?_, ?_⟩, ?_⟩
  · intro hnone
    by_contra hcon
    push_neg at hcon
    obtain ⟨jp, hjp, -⟩ := find_join_path_some_of_nonempty hcon.2 hcon.1
    rw [hjp] at hnone
    cases hnone
  · rintro (rfl | hempty)
    · exact find_join_path_self _ u
    · exact find_join_path_empty hempty
  · intro jp hjp
    have hshape := find_join_path_some_shape hjp
    exact ⟨hshape.2.1, hshape.2.2.1⟩

/-- C6, witness: applied to the two connected tables of `mdOneIncoming`. -/
theorem c6_witness :
    ("a" ∈ (buildRelationshipGraph mdOneIncoming).nodes ∧
      "b" ∈ (buildRelationshipGraph mdOneIncoming).nodes) ∧
    ((find_join_path (buildRelationshipGraph mdOneIncoming) "a" "b" = none ↔
        "a" = "b" ∨ pathsBetween (buildRelationshipGraph mdOneIncoming) "a" "b" = []) ∧
      ∀ jp, find_join_path (buildRelationshipGraph mdOneIncoming) "a" "b" = some jp →
        2 ≤ jp.tables.length ∧ jp.tables.Nodup) :=
  ⟨⟨by decide, by decide⟩,
    c6_self_and_disconnected_none mdOneIncoming "a" "b" (by decide) (by decide)⟩

/-- C5, amended: for every DetectedRelationship `A.x → B.y` the graph holds
the forward edge and the reverse edge, and — provided `A ≠ B` — the reverse
edge carries exactly the swapped columns with the same weight, and
`shortest_path(A,B)` and `shortest_path(B,A)` both return a path with equal
total cost.  For a self-relationship (`A = B`) both edges exist but
`shortest_path(A,A)` is `None` (see the counterexample), which the original
claim overlooked. -/
theorem c5_amended (md : DatabaseMetadata) (rel : DetectedRelationship)
    (h : rel ∈ md.detectedRelationships) :
    (edgeData (buildRelationshipGraph md) rel.sourceTable rel.targetTable).isSome = true ∧
    (edgeData (buildRelationshipGraph md) rel.targetTable rel.sourceTable).isSome = true ∧
    (rel.sourceTable ≠ rel.targetTable →
      edgeData (buildRelationshipGraph md) rel.targetTable rel.sourceTable =
        (edgeData (buildRelationshipGraph md) rel.sourceTable rel.targetTable).map
          swapEdge ∧
      ∃ jp jp',
        find_join_path (buildRelationshipGraph md) rel.sourceTable rel.targetTable =
          some jp ∧
        find_join_path (buildRelationshipGraph md) rel.targetTable rel.sourceTable =
          some jp' ∧
        jp.totalCost = jp'.totalCost) := by
  obtain ⟨e1, e2, n1, n2⟩ := buildGraph_edges_present md rel h
  have hm := mirrorInv_buildRelationshipGraph md
  refine ⟨e1, e2, fun hne => ⟨hm _ _ hne, ?_⟩⟩
  have hsp : isSimplePath (buildRelationshipGraph md) rel.sourceTable rel.targetTable
      [rel.sourceTable, rel.targetTable] = true := by
    rw [isSimplePath_iff]
    refine ⟨rfl, rfl, ?_, ?_, ?_⟩
    · simp [hne]
    · simp [isChain, e1]
    · intro x hx
      rcases List.mem_cons.mp hx with rfl | hx
      · exact n1
      · rw [List.mem_singleton.mp hx]
        exact n2
  have hsp' := isSimplePath_reverse hm hsp
  rw [show [rel.sourceTable, rel.targetTable].reverse =
    [rel.targetTable, rel.sourceTable] from rfl] at hsp'
  have hne1 : pathsBetween (buildRelationshipGraph md) rel.sourceTable rel.targetTable ≠ [] :=
    List.ne_nil_of_mem (pathsBetween_mem.mpr hsp)
  have hne2 : pathsBetween (buildRelationshipGraph md) rel.targetTable rel.sourceTable ≠ [] :=
    List.ne_nil_of_mem (pathsBetween_mem.mpr hsp')
  obtain ⟨jp, hjp, hcost⟩ := find_join_path_some_of_nonempty hne1 hne
  obtain ⟨jp', hjp', hcost'⟩ := find_join_path_some_of_nonempty hne2 (Ne.symm hne)
  refine ⟨jp, jp', hjp, hjp', ?_⟩
  have hsym := shortestCost_symm hm rel.sourceTable rel.targetTable
  rw [hcost, hcost'] at hsym
  injection hsym

/-- C5, witness: applied to the single relationship of `mdOneIncoming`. -/
theorem c5_witness :
    (⟨"a", "x", "b", "y", .high, "foreign_key_constraint"⟩ : DetectedRelationship) ∈
        mdOneIncoming.detectedRelationships ∧
    (edgeData (buildRelationshipGraph mdOneIncoming) "a" "b").isSome = true ∧
    (edgeData (buildRelationshipGraph mdOneIncoming) "b" "a").isSome = true ∧
    (("a" : String) ≠ "b" →
      edgeData (buildRelationshipGraph mdOneIncoming) "b" "a" =
        (edgeData (buildRelationshipGraph mdOneIncoming) "a" "b").map swapEdge ∧
      ∃ jp jp',
        find_join_path (buildRelationshipGraph mdOneIncoming) "a" "b" = some jp ∧
        find_join_path (buildRelationshipGraph mdOneIncoming) "b" "a" = some jp' ∧
        jp.totalCost = jp'.totalCost) :=
  ⟨by decide,
    c5_amended mdOneIncoming ⟨"a", "x", "b", "y", .high, "foreign_key_constraint"⟩
      (by decide)⟩

/-! ## C7 — `create_pipeline` error contract and chain structure -/

/-- The join-step loop succeeds iff every consecutive chain pair is
connected in one direction or the other. -/
theorem buildJoinSteps_ok_iff (g : RelGraph) (jt : JoinType) :
    ∀ (rest : List String) (base : String) (i : Nat),
    (∃ steps, buildJoinSteps g jt i base rest = .ok steps) ↔
      ∀ pr ∈ consecPairs (base :: rest),
        (((find_join_path g pr.1 pr.2).orElse fun _ =>
          find_join_path g pr.2 pr.1)).isSome = true := by
  intro rest
  induction rest with
  | nil =>
    intro base i
    simp [buildJoinSteps, consecPairs]
  | cons target rest ih =>
    intro base i
    rw [show consecPairs (base :: target :: rest) =
      (base, target) :: consecPairs (target :: rest) from rfl]
    simp only [buildJoinSteps]
    cases hf : (find_join_path g base target).orElse
        (fun _ => find_join_path g target base) with
    | none =>
      constructor
      · rintro ⟨steps, hsteps⟩
        cases hsteps
      · intro hall
        have := hall (base, target) (List.mem_cons_self _ _)
        rw [hf] at this
        cases this
    | some jp =>
      cases hrec : buildJoinSteps g jt (i + 1) target rest with
      | error e =>
        constructor
        · rintro ⟨steps, hsteps⟩
          cases hsteps
        · intro hall
          obtain ⟨steps, hsteps⟩ := (ih target (i + 1)).mpr
            (fun pr hpr => hall pr (List.mem_cons_of_mem _ hpr))
          rw [hrec] at hsteps
          cases hsteps
      | ok steps =>
        constructor
        · intro _
          intro pr hpr
          rcases List.mem_cons.mp hpr with rfl | hpr'
          · rw [hf]
            rfl
          · exact (ih target (i + 1)).mp ⟨steps, hrec⟩ pr hpr'
        · intro _
          exact ⟨_, rfl⟩

/-- The steps a successful join-step loop returns: one step per chain pair,
named after its target, carrying that pair's join conditions. -/
theorem buildJoinSteps_ok_spec (g : RelGraph) (jt : JoinType) :
    ∀ (rest : List String) (base : String) (i : Nat) (steps : List PipelineStep),
    buildJoinSteps g jt i base rest = .ok steps →
      steps.map (·.stepName) = rest.map (fun t => "Join with " ++ t) ∧
      steps.map (·.joinConditions) =
        (consecPairs (base :: rest)).map (fun pr =>
          (((find_join_path g pr.1 pr.2).orElse fun _ =>
            find_join_path g pr.2 pr.1).map (·.joins)).getD []) := by
  intro rest
  induction rest with
  | nil =>
    intro base i steps h
    cases h
    exact ⟨rfl, rfl⟩
  | cons target rest ih =>
    intro base i steps h
    rw [show consecPairs (base :: target :: rest) =
      (base, target) :: consecPairs (target :: rest) from rfl]
    simp only [buildJoinSteps] at h
    cases hf : (find_join_path g base target).orElse
        (fun _ => find_join_path g target base) with
    | none =>
      rw [hf] at h
      cases h
    | some jp =>
      rw [hf] at h
      cases hrec : buildJoinSteps g jt (i + 1) target rest with
      | error e =>
        rw [hrec] at h
        cases h
      | ok steps' =>
        rw [hrec] at h
        injection h with h
        subst h
        obtain ⟨h1, h2⟩ := ih target (i + 1) steps' hrec
        refine ⟨?_, ?_⟩
        · rw [List.map_cons, h1]
          rfl
        · rw [List.map_cons, h2, List.map_cons, hf]
          rfl

/-- C7: `create_pipeline` fails (with a descriptive error) if and only if
fewer than 2 source tables are given or some consecutive pair of the
requested chain has no join path in either direction (forward tried first,
then reverse); on success the pipeline keeps the requested table list and
has one join step per consecutive pair, in chain order, the base table
advancing to each requested table in turn.  Stated for table names present
in the graph (networkx raises `NodeNotFound` for others, outside the
claim). -/
theorem c7_create_pipeline (md : DatabaseMetadata) (name : String)
    (sourceTables : List String) (joinType : JoinType) (inc : Bool)
    (sel : Option (List (String × List String)))
    (hnodes : ∀ t ∈ sourceTables, t ∈ (buildRelationshipGraph md).nodes) :
    ((∃ e, create_pipeline md name sourceTables joinType inc sel = .error e) ↔
      sourceTables.length < 2 ∨
        ∃ pr ∈ consecPairs sourceTables,
          ((find_join_path (buildRelationshipGraph md) pr.1 pr.2).orElse fun _ =>
            find_join_path (buildRelationshipGraph md) pr.2 pr.1) = none) ∧
    ∀ pl, create_pipeline md name sourceTables joinType inc sel = .ok pl →
      pl.sourceTables = sourceTables ∧
      pl.steps.map (·.stepName) = sourceTables.tail.map (fun t => "Join with " ++ t) ∧
      pl.steps.map (·.joinConditions) =
        (consecPairs sourceTables).map (fun pr =>
          (((find_join_path (buildRelationshipGraph md) pr.1 pr.2).orElse fun _ =>
            find_join_path (buildRelationshipGraph md) pr.2 pr.1).map (·.joins)).getD
            []) := by
  clear hnodes
  unfold create_pipeline
  by_cases hlen : sourceTables.length < 2
  · rw [if_pos hlen]
    refine ⟨⟨fun _ => Or.inl hlen, fun _ => ⟨_, rfl⟩⟩, ?_⟩
    intro pl hpl
    cases hpl
  · rw [if_neg hlen]
    cases sourceTables with
    | nil => exact absurd (by simp) hlen
    | cons base rest =>
      dsimp only
      cases hbs : buildJoinSteps (buildRelationshipGraph md) joinType 1 base rest with
      | error e =>
        refine ⟨⟨fun _ => ?_, fun _ => ⟨e, rfl⟩⟩, ?_⟩
        · right
          by_contra hcon
          push_neg at hcon
          have hall : ∀ pr ∈ consecPairs (base :: rest),
              (((find_join_path (buildRelationshipGraph md) pr.1 pr.2).orElse fun _ =>
                find_join_path (buildRelationshipGraph md) pr.2 pr.1)).isSome = true := by
            intro pr hpr
            cases ho : ((find_join_path (buildRelationshipGraph md) pr.1 pr.2).orElse
                fun _ => find_join_path (buildRelationshipGraph md) pr.2 pr.1) with
            | none => exact absurd ho (hcon pr hpr)
            | some _ => rfl
          obtain ⟨steps, hsteps⟩ :=
            (buildJoinSteps_ok_iff (buildRelationshipGraph md) joinType rest base 1).mpr hall
          rw [hbs] at hsteps
          cases hsteps
        · intro pl hpl
          cases hpl
      | ok steps =>
        refine ⟨⟨?_, ?_⟩, ?_⟩
        · rintro ⟨e, he⟩
          cases he
        · rintro (h | ⟨pr, hpr, hnone⟩)
          · exact absurd h hlen
          · have hall := (buildJoinSteps_ok_iff
              (buildRelationshipGraph md) joinType rest base 1).mp ⟨steps, hbs⟩ pr hpr
            rw [hnone] at hall
            cases hall
        · intro pl hpl
          injection hpl with hpl
          subst hpl
          obtain ⟨h1, h2⟩ :=
            buildJoinSteps_ok_spec (buildRelationshipGraph md) joinType rest base 1 steps hbs
          exact ⟨rfl, h1, h2⟩

/-- C7, witness: applied to the two connected tables of `mdOneIncoming`. -/
theorem c7_witness :
    (∀ t ∈ ["a", "b"], t ∈ (buildRelationshipGraph mdOneIncoming).nodes) ∧
    (((∃ e, create_pipeline mdOneIncoming "p" ["a", "b"] .left true none = .error e) ↔
      (["a", "b"] : List String).length < 2 ∨
        ∃ pr ∈ consecPairs ["a", "b"],
          ((find_join_path (buildRelationshipGraph mdOneIncoming) pr.1 pr.2).orElse fun _ =>
            find_join_path (buildRelationshipGraph mdOneIncoming) pr.2 pr.1) = none) ∧
    ∀ pl, create_pipeline mdOneIncoming "p" ["a", "b"] .left true none = .ok pl →
      pl.sourceTables = ["a", "b"] ∧
      pl.steps.map (·.stepName) = (["a", "b"] : List String).tail.map
        (fun t => "Join with " ++ t) ∧
      pl.steps.map (·.joinConditions) =
        (consecPairs ["a", "b"]).map (fun pr =>
          (((find_join_path (buildRelationshipGraph mdOneIncoming) pr.1 pr.2).orElse
            fun _ =>
            find_join_path (buildRelationshipGraph mdOneIncoming) pr.2 pr.1).map
              (·.joins)).getD [])) :=
  ⟨by decide, c7_create_pipeline mdOneIncoming "p" ["a", "b"] .left true none (by decide)⟩

/-! ## C9 — dataset generation -/

/-- Unfolding lemma for `dedupHighFirst` on a cons cell. -/
theorem dedupHighFirst_cons (rel : DetectedRelationship) (rest : List DetectedRelationship)
    (seen : List (String × String)) :
    dedupHighFirst (rel :: rest) seen =
      if rel.confidence = .high ∧ pairKeyOf rel.sourceTable rel.targetTable ∉ seen then
        rel :: dedupHighFirst rest (seen ++ [pairKeyOf rel.sourceTable rel.targetTable])
      else dedupHighFirst rest seen := rfl

/-- The fold of `generate_datasets`, characterized: the datasets are the
successful synthesis attempts over the first-occurrence representatives of
the unprocessed unordered HIGH pairs, and the processed-pair set grows by
exactly those pairs. -/
theorem generateFold_spec (md : DatabaseMetadata) :
    ∀ (rels : List DetectedRelationship) (acc : List Dataset × List (String × String)),
    (rels.foldl (generateStep md) acc).1 =
      acc.1 ++ (dedupHighFirst rels acc.2).filterMap (attemptDataset md) ∧
    (rels.foldl (generateStep md) acc).2 =
      acc.2 ++ (dedupHighFirst rels acc.2).map
        (fun r => pairKeyOf r.sourceTable r.targetTable) := by
  intro rels
  induction rels with
  | nil =>
    intro acc
    simp [dedupHighFirst]
  | cons rel rest ih =>
    intro acc
    rw [List.foldl_cons]
    by_cases hh : rel.confidence = .high
    · by_cases hk : pairKeyOf rel.sourceTable rel.targetTable ∈ acc.2
      · have hstep : generateStep md acc rel = acc := by
          unfold generateStep
          rw [if_pos hh]
          dsimp only
          rw [if_pos hk]
        have hdedup : dedupHighFirst (rel :: rest) acc.2 = dedupHighFirst rest acc.2 := by
          rw [dedupHighFirst_cons, if_neg (by intro hcon; exact hcon.2 hk)]
        rw [hstep, hdedup]
        exact ih acc
      · have hdedup : dedupHighFirst (rel :: rest) acc.2 =
            rel :: dedupHighFirst rest
              (acc.2 ++ [pairKeyOf rel.sourceTable rel.targetTable]) := by
          rw [dedupHighFirst_cons, if_pos ⟨hh, hk⟩]
        rw [hdedup]
        cases hcp : create_pipeline md
            (rel.sourceTable ++ "_" ++ rel.targetTable ++ "_joined")
            [rel.sourceTable, rel.targetTable] with
        | ok pl =>
          have hstep : generateStep md acc rel =
              (acc.1 ++ [mkDataset rel pl],
                acc.2 ++ [pairKeyOf rel.sourceTable rel.targetTable]) := by
            unfold generateStep
            rw [if_pos hh]
            dsimp only
            rw [if_neg hk, hcp]
          have hat : attemptDataset md rel = some (mkDataset rel pl) := by
            unfold attemptDataset
            rw [hcp]
            rfl
          rw [hstep]
          obtain ⟨ih1, ih2⟩ := ih (acc.1 ++ [mkDataset rel pl],
            acc.2 ++ [pairKeyOf rel.sourceTable rel.targetTable])
          rw [ih1, ih2]
          rw [List.filterMap_cons, hat]
          simp
        | error e =>
          have hstep : generateStep md acc rel =
              (acc.1, acc.2 ++ [pairKeyOf rel.sourceTable rel.targetTable]) := by
            unfold generateStep
            rw [if_pos hh]
            dsimp only
            rw [if_neg hk, hcp]
          have hat : attemptDataset md rel = none := by
            unfold attemptDataset
            rw [hcp]
            rfl
          rw [hstep]
          obtain ⟨ih1, ih2⟩ := ih (acc.1,
            acc.2 ++ [pairKeyOf rel.sourceTable rel.targetTable])
          rw [ih1, ih2]
          rw [List.filterMap_cons, hat]
          simp
    · have hstep : generateStep md acc rel = acc := by
        unfold generateStep
        rw [if_neg hh]
      have hdedup : dedupHighFirst (rel :: rest) acc.2 = dedupHighFirst rest acc.2 := by
        rw [dedupHighFirst_cons, if_neg (by intro hcon; exact hh hcon.1)]
      rw [hstep, hdedup]
      exact ih acc

/-- `dedupHighFirst` keeps only HIGH relationships of its input. -/
theorem dedupHighFirst_sub :
    ∀ (rels : List DetectedRelationship) (seen : List (String × String))
      (r : DetectedRelationship), r ∈ dedupHighFirst rels seen →
      r ∈ rels ∧ r.confidence = .high := by
  intro rels
  induction rels with
  | nil => intro seen r h; cases h
  | cons rel rest ih =>
    intro seen r h
    rw [dedupHighFirst_cons] at h
    by_cases hg : rel.confidence = .high ∧
        pairKeyOf rel.sourceTable rel.targetTable ∉ seen
    · rw [if_pos hg] at h
      rcases List.mem_cons.mp h with rfl | hm
      · exact ⟨List.mem_cons_self _ _, hg.1⟩
      · obtain ⟨hmem, hhigh⟩ := ih _ r hm
        exact ⟨List.mem_cons_of_mem _ hmem, hhigh⟩
    · rw [if_neg hg] at h
      obtain ⟨hmem, hhigh⟩ := ih _ r h
      exact ⟨List.mem_cons_of_mem _ hmem, hhigh⟩

/-- The pair keys of `dedupHighFirst`'s output are distinct and fresh. -/
theorem dedupHighFirst_keys :
    ∀ (rels : List DetectedRelationship) (seen : List (String × String)),
    ((dedupHighFirst rels seen).map
      (fun r => pairKeyOf r.sourceTable r.targetTable)).Nodup ∧
    ∀ k ∈ (dedupHighFirst rels seen).map
      (fun r => pairKeyOf r.sourceTable r.targetTable), k ∉ seen := by
  intro rels
  induction rels with
  | nil => intro seen; exact ⟨List.nodup_nil, fun k h => absurd h (List.not_mem_nil k)⟩
  | cons rel rest ih =>
    intro seen
    rw [dedupHighFirst_cons]
    by_cases hg : rel.confidence = .high ∧
        pairKeyOf rel.sourceTable rel.targetTable ∉ seen
    · rw [if_pos hg]
      obtain ⟨ihn, ihf⟩ := ih (seen ++ [pairKeyOf rel.sourceTable rel.targetTable])
      rw [List.map_cons, List.nodup_cons]
      refine ⟨⟨?_, ihn⟩, ?_⟩
      · intro hcon
        exact ihf _ hcon (List.mem_append_right _ (List.mem_singleton.mpr rfl))
      · intro k hk
        rcases List.mem_cons.mp hk with rfl | hk'
        · exact hg.2
        · intro hcon
          exact ihf k hk' (List.mem_append_left _ hcon)
    · rw [if_neg hg]
      exact ih seen

/-- C9: `generate_datasets` is exactly the list of successful pipeline
syntheses over the first occurrence of each unordered HIGH-confidence table
pair (FK direction irrelevant to the pair key; a failed synthesis
contributes nothing but does not stop the remaining pairs), and it yields at
most one dataset per distinct unordered HIGH pair. -/
theorem c9_generate_datasets (md : DatabaseMetadata) :
    generateDatasets md =
      (dedupHighFirst md.detectedRelationships []).filterMap (attemptDataset md) ∧
    (generateDatasets md).length ≤
      (((md.detectedRelationships.filter fun r => r.confidence == .high).map
        fun r => pairKeyOf r.sourceTable r.targetTable).dedup).length := by
  have hchar : generateDatasets md =
      (dedupHighFirst md.detectedRelationships []).filterMap (attemptDataset md) := by
    unfold generateDatasets
    rw [(generateFold_spec md md.detectedRelationships ([], [])).1]
    rfl
  refine ⟨hchar, ?_⟩
  rw [hchar]
  have h1 : ((dedupHighFirst md.detectedRelationships []).filterMap
      (attemptDataset md)).length ≤ (dedupHighFirst md.detectedRelationships []).length :=
    List.length_filterMap_le _ _
  have h2 : (dedupHighFirst md.detectedRelationships []).length =
      ((dedupHighFirst md.detectedRelationships []).map
        (fun r => pairKeyOf r.sourceTable r.targetTable)).length := by
    rw [List.length_map]
  have hnodup := (dedupHighFirst_keys md.detectedRelationships []).1
  have hsub : ((dedupHighFirst md.detectedRelationships []).map
      (fun r => pairKeyOf r.sourceTable r.targetTable)) ⊆
      ((md.detectedRelationships.filter fun r => r.confidence == .high).map
        fun r => pairKeyOf r.sourceTable r.targetTable) := by
    intro k hk
    obtain ⟨r, hr, rfl⟩ := List.mem_map.mp hk
    obtain ⟨hmem, hhigh⟩ := dedupHighFirst_sub md.detectedRelationships [] r hr
    exact List.mem_map.mpr ⟨r, List.mem_filter.mpr ⟨hmem, by simp [hhigh]⟩, rfl⟩
  have hcard : ((dedupHighFirst md.detectedRelationships []).map
      (fun r => pairKeyOf r.sourceTable r.targetTable)).length ≤
      (((md.detectedRelationships.filter fun r => r.confidence == .high).map
        fun r => pairKeyOf r.sourceTable r.targetTable).dedup).length := by
    rw [← List.toFinset_card_of_nodup hnodup, ← List.card_toFinset]
    apply Finset.card_le_card
    intro a ha
    rw [List.mem_toFinset] at ha ⊢
    exact hsub ha
  omega
